import Mathlib

/-!
Verification of the content-resolution and extraction engine of the
`human_rights` repository (directory `extract_works_full_text`).

The definitions below are a shallow embedding of the Python source:

* `extract_works_full_text/scripts/extract_wikisource.py`
  (`analyze_page`, `score_link`, `sort_subpages`, `roman_to_int`,
  `html_to_text`, `extract_key_terms`, `extract_portal`,
  `extract_full_text`, `make_request`);
* `extract_works_full_text/extractors/base.py` (`BaseExtractor.make_request`);
* `extract_works_full_text/extractors/wikisource.py`
  (`WikisourceExtractor.has_subpages`).

Network access (`requests`) is modelled by explicit environments of oracles:
a fetch either returns the page data or `none` (a failed fetch after
retries).  Machine strings are modelled by Lean `String`/`List Char`;
Python's `str.lower` is modelled by ASCII `Char.toLower` (all vocabulary
involved is ASCII).
-/

/-- Models Python's substring test `needle in haystack` on strings
(`True` for the empty needle, as in Python). -/
def containsSub (needle haystack : String) : Bool :=
  haystack.data.tails.any (fun t => needle.data.isPrefixOf t)

/-- Models Python's `str.lower` (ASCII; all vocabulary in the code is ASCII). -/
def pyLower (s : String) : String :=
  ⟨s.data.map Char.toLower⟩

/-- Splits a character list on every occurrence of the separator `c`;
models Python's `str.split(sep)` for a one-character separator
(`"".split(sep) == ['']`). -/
def splitChar (c : Char) : List Char → List (List Char)
  | [] => [[]]
  | a :: t =>
    if a = c then [] :: splitChar c t
    else
      match splitChar c t with
      | h :: r => (a :: h) :: r
      | [] => [[a]]

/-- Models Python's `str.split(sep)[0]` for a one-character separator. -/
def splitHead (c : Char) (s : String) : String :=
  ⟨(splitChar c s.data).headD []⟩

/-- Models Python's `str.startswith(p)`. -/
def pyStartsWith (p s : String) : Bool :=
  p.data.isPrefixOf s.data

/-! ### Page classification (`analyze_page`, lines 245-317) -/

/-- The six page types of `PageType = Literal['direct', 'multipage', 'portal',
'disambiguation', 'error', 'empty']` (extract_wikisource.py line 73). -/
inductive PageType where
  | direct
  | multipage
  | portal
  | disambiguation
  | empty
  | error
deriving DecidableEq, Repr

/-- Data `analyze_page` reads from a successfully fetched page: the normalized
text (the result of `html_to_text(html)`) and the `href` attributes of all
anchor tags of the parsed page.  A failed fetch (`get_page_content` returning
`None, None`) is modelled as `none` at the use sites. -/
structure FetchedPage where
  text : String
  hrefs : List String
deriving DecidableEq, Repr

/-- The `version_keywords` list of `analyze_page` (line 277).  Note the fifth
keyword `translator`. -/
def version_keywords : List String :=
  ["translation", "edition", "version", "translator", "translated by"]

/-- The `disambig_keywords` list of `analyze_page` (line 291). -/
def disambig_keywords : List String :=
  ["may refer to", "disambiguation", "see also"]

/-- Count of anchor hrefs that start with `/wiki/` and contain the page's base
title (`analyze_page` lines 282-288; `base_title = title.split('/')[0]`). -/
def subpage_link_count (title : String) (hrefs : List String) : Nat :=
  let base_title := splitHead '/' title
  (hrefs.filter (fun h => pyStartsWith "/wiki/" h && containsSub base_title h)).length

/-- Embeds `analyze_page` (extract_wikisource.py lines 245-317): a failed fetch
yields `error`; otherwise the page type is decided by the code's first-match
chain over the normalized text length, the disambiguation vocabulary, the
version vocabulary and the subpage-link count.  The final two branches of the
code (`text_length > 1000` and the default) both yield `direct` and are kept
as in the source. -/
def analyze_page (title : String) (page : Option FetchedPage) : PageType :=
  match page with
  | none => .error
  | some pg =>
    let text_length := pg.text.length
    let text_lower := pyLower pg.text
    let has_version_links := version_keywords.any (fun kw => containsSub kw text_lower)
    let subpage_count := subpage_link_count title pg.hrefs
    let is_disambig := disambig_keywords.any (fun kw => containsSub kw text_lower)
    if text_length < 50 then .empty
    else if is_disambig && decide (text_length < 500) then .disambiguation
    else if has_version_links && decide (text_length < 3000) then .portal
    else if decide (subpage_count > 3) && decide (text_length < 1000) then .multipage
    else if text_length > 1000 then .direct
    else .direct

/-- The translation/edition vocabulary exactly as the claim (and spec section
4.3 rule 3) enumerates it: four entries, without the code's `translator`. -/
def claim_version_keywords : List String :=
  ["translation", "edition", "version", "translated by"]

/-- The classifier exactly as the claim words it: the same first-match decision
list, but with the translation/edition vocabulary as the claim enumerates it
(four keywords) and a single `direct` default. -/
def analyze_page_claim (title : String) (page : Option FetchedPage) : PageType :=
  match page with
  | none => .error
  | some pg =>
    let text_length := pg.text.length
    let text_lower := pyLower pg.text
    let has_version_links := claim_version_keywords.any (fun kw => containsSub kw text_lower)
    let subpage_count := subpage_link_count title pg.hrefs
    let is_disambig := disambig_keywords.any (fun kw => containsSub kw text_lower)
    if text_length < 50 then .empty
    else if is_disambig && decide (text_length < 500) then .disambiguation
    else if has_version_links && decide (text_length < 3000) then .portal
    else if decide (subpage_count > 3) && decide (text_length < 1000) then .multipage
    else .direct

/-- The classifier with the claim's decision structure and the code's actual
five-keyword vocabulary (the amended claim). -/
def analyze_page_amended (title : String) (page : Option FetchedPage) : PageType :=
  match page with
  | none => .error
  | some pg =>
    let text_length := pg.text.length
    let text_lower := pyLower pg.text
    let has_version_links := version_keywords.any (fun kw => containsSub kw text_lower)
    let subpage_count := subpage_link_count title pg.hrefs
    let is_disambig := disambig_keywords.any (fun kw => containsSub kw text_lower)
    if text_length < 50 then .empty
    else if is_disambig && decide (text_length < 500) then .disambiguation
    else if has_version_links && decide (text_length < 3000) then .portal
    else if decide (subpage_count > 3) && decide (text_length < 1000) then .multipage
    else .direct

/-- The page text of the C1 counterexample: 76 characters, contains the code's
keyword `translator` but none of the four keywords the claim lists and no
disambiguation vocabulary. -/
def c1text : String :=
  "the translator prepared this page for the archive project in the year 1900."

/-- C1 counterexample: a 76-character page whose text contains `translator`
(checked by the code) but none of the four vocabulary words the claim lists is
classified `portal` by `analyze_page`, while the decision order exactly as the
claim states it yields `direct`. -/
theorem analyze_page_ne_claim :
    analyze_page "T" (some ⟨c1text, []⟩) = PageType.portal ∧
    analyze_page_claim "T" (some ⟨c1text, []⟩) = PageType.direct := by
  constructor <;> decide

/-- C1 amended: for every fetched page the classifier assigns exactly one of
the six page types by the claim's first-match decision order, with the
translation/edition vocabulary being the code's five keywords ("translation",
"edition", "version", "translator", "translated by") rather than the claim's
four: `analyze_page` agrees everywhere with that amended decision list. -/
theorem analyze_page_eq_amended (title : String) (page : Option FetchedPage) :
    analyze_page title page = analyze_page_amended title page := by
  cases page with
  | none => rfl
  | some pg =>
    simp only [analyze_page, analyze_page_amended]
    split_ifs <;> rfl

/-! ### Portal link scoring (`score_link`, extract_wikisource.py lines 624-663) -/

/-- The `translation_indicators` list of `score_link` (line 641). -/
def translation_indicators : List String := ["translation", "translated", "version"]

/-- Embeds `score_link` (lines 624-663).  For the i-th key term (0-based) the
weight is `len(key_terms) - i`; the term adds `10 * weight` when contained in
the lowered link title and `5 * weight` when contained in the lowered anchor
text.  The indicator loop then adds 3 for each indicator word present in the
title or anchor text, `(` in the title adds 2, `/` adds 5, a title shorter
than 10 characters subtracts 5, and a total of exactly 0 becomes -10. -/
def score_link (key_terms : List String) (linkTitle linkText : String) : Int :=
  let title_lower := pyLower linkTitle
  let text_lower := pyLower linkText
  let score : Int := (key_terms.enum).foldl
    (fun acc p =>
      let weight : Int := (key_terms.length : Int) - (p.1 : Int)
      let acc := if containsSub (pyLower p.2) title_lower then acc + 10 * weight else acc
      if containsSub (pyLower p.2) text_lower then acc + 5 * weight else acc) 0
  let score := translation_indicators.foldl
    (fun acc ind =>
      if containsSub ind title_lower || containsSub ind text_lower then acc + 3 else acc)
    score
  let score := if linkTitle.data.contains '(' then score + 2 else score
  let score := if linkTitle.data.contains '/' then score + 5 else score
  let score := if linkTitle.length < 10 then score - 5 else score
  if score = 0 then -10 else score

/-- The scorer exactly as the claim words it: identical to `score_link` except
that the translation-indicator bonus is a single flat `+3` whenever any
indicator vocabulary appears in the title or anchor text. -/
def score_link_claim (key_terms : List String) (linkTitle linkText : String) : Int :=
  let title_lower := pyLower linkTitle
  let text_lower := pyLower linkText
  let score : Int := (key_terms.enum).foldl
    (fun acc p =>
      let weight : Int := (key_terms.length : Int) - (p.1 : Int)
      let acc := if containsSub (pyLower p.2) title_lower then acc + 10 * weight else acc
      if containsSub (pyLower p.2) text_lower then acc + 5 * weight else acc) 0
  let score :=
    if translation_indicators.any
        (fun ind => containsSub ind title_lower || containsSub ind text_lower)
    then score + 3 else score
  let score := if linkTitle.data.contains '(' then score + 2 else score
  let score := if linkTitle.data.contains '/' then score + 5 else score
  let score := if linkTitle.length < 10 then score - 5 else score
  if score = 0 then -10 else score

/-- The scorer as the amended claim words it: the indicator bonus is
`3 * (number of indicator words present in the title or anchor text)`,
so it ranges over 0, 3, 6, 9. -/
def score_link_amended (key_terms : List String) (linkTitle linkText : String) : Int :=
  let title_lower := pyLower linkTitle
  let text_lower := pyLower linkText
  let score : Int := (key_terms.enum).foldl
    (fun acc p =>
      let weight : Int := (key_terms.length : Int) - (p.1 : Int)
      let acc := if containsSub (pyLower p.2) title_lower then acc + 10 * weight else acc
      if containsSub (pyLower p.2) text_lower then acc + 5 * weight else acc) 0
  let score := score + 3 *
    ((translation_indicators.filter
        (fun ind => containsSub ind title_lower || containsSub ind text_lower)).length : Int)
  let score := if linkTitle.data.contains '(' then score + 2 else score
  let score := if linkTitle.data.contains '/' then score + 5 else score
  let score := if linkTitle.length < 10 then score - 5 else score
  if score = 0 then -10 else score

/-- C3 counterexample: with no key terms, the link title `translated version`
(18 characters, no parenthesis, no slash) contains two indicator words, so the
code scores it 6 while the claim's flat `+3` bonus yields 3. -/
theorem score_link_ne_claim :
    score_link [] "translated version" "" = 6 ∧
    score_link_claim [] "translated version" "" = 3 := by
  constructor <;> decide

/-- Folding `+3` over the elements satisfying `p` equals adding `3` times the
number of such elements. -/
theorem foldl_add3_eq (p : String → Bool) (l : List String) :
    ∀ s : Int,
      l.foldl (fun acc ind => if p ind then acc + 3 else acc) s
        = s + 3 * ((l.filter p).length : Int) := by
  induction l with
  | nil => intro s; simp
  | cons a t ih =>
    intro s
    cases hpa : p a with
    | false => simp [List.foldl_cons, hpa, ih, List.filter_cons]
    | true =>
      simp only [List.foldl_cons, hpa, if_true, ih, List.filter_cons, ite_true,
        List.length_cons]
      push_cast
      ring

/-- C3 amended: the version-link score is as the claim states except that the
translation-indicator bonus is `+3` for each of the three indicator words
("translation", "translated", "version") present in the title or anchor text,
not a single flat `+3`: `score_link` agrees everywhere with the amended
formula. -/
theorem score_link_eq_amended (key_terms : List String) (t x : String) :
    score_link key_terms t x = score_link_amended key_terms t x := by
  simp only [score_link, score_link_amended]
  rw [foldl_add3_eq]

/-! ### Subpage ordering (`sort_subpages` lines 340-359, `roman_to_int`
lines 362-374) -/

/-- The `values` dictionary of `roman_to_int` (line 364); unknown characters
have value 0 via `values.get(char, 0)`. -/
def romanCharValue (c : Char) : Int :=
  if c = 'I' then 1 else if c = 'V' then 5 else if c = 'X' then 10
  else if c = 'L' then 50 else if c = 'C' then 100 else if c = 'D' then 500
  else if c = 'M' then 1000 else 0

/-- Embeds `roman_to_int` (lines 362-374): right-to-left accumulation with the
subtractive rule, accumulator pair `(total, prev)`. -/
def roman_to_int (s : String) : Int :=
  (s.data.reverse.foldl
    (fun acc c =>
      let curr := romanCharValue c
      ((if curr < acc.2 then acc.1 - curr else acc.1 + curr), curr))
    ((0 : Int), (0 : Int))).1

/-- Leading decimal digits of a suffix: the group of `re.match(r'^(\d+)', suffix)`
(ASCII digits). -/
def leadingDigits (l : List Char) : List Char := l.takeWhile Char.isDigit

/-- Numeric value of a digit run, models Python's `int(...)`. -/
def digitsToNat (l : List Char) : Nat := l.foldl (fun n c => 10 * n + (c.toNat - 48)) 0

/-- The regex character class `\s` (ASCII whitespace, as relevant to title
suffixes). -/
def reSpace (c : Char) : Bool :=
  c = ' ' || c = '\t' || c = '\n' || c = '\x0b' || c = '\x0c' || c = '\r'

/-- Matches the regex tail `\.?\s` at the start of the list (with the usual
backtracking over the optional dot). -/
def romanTailMatch : List Char → Bool
  | '.' :: c :: _ => reSpace c
  | c :: _ => reSpace c
  | [] => false

/-- Consumes the upper-case pattern case-insensitively from the front of the
list, returning the rest (models one regex alternative under `re.IGNORECASE`). -/
def consumeCI : List Char → List Char → Option (List Char)
  | [], l => some l
  | p :: ps, c :: cs => if c.toUpper = p then consumeCI ps cs else none
  | _ :: _, [] => none

/-- One match attempt: the token followed by `\.?\s`. -/
def tokMatch (pat : String) (l : List Char) : Bool :=
  match consumeCI pat.data l with
  | some rest => romanTailMatch rest
  | none => false

/-- Compiles `re.match(r'^(I{1,3}|IV|V|VI{0,3}|IX|X{0,3})\.?\s', suffix, re.IGNORECASE)`
(`sort_subpages`, line 351).  Alternatives are tried left to right, each
counted repetition greedily with backtracking, so the attempts are exactly the
token sequence below (the `VI{0,3}` alternative with zero `I`s repeats the
earlier `V` attempt and is dropped as unreachable); the group is returned
upper-cased as in `roman_match.group(1).upper()` (line 353).  `X{0,3}` can
match the empty group. -/
def romanAttempts : List String :=
  ["III", "II", "I", "IV", "V", "VIII", "VII", "VI", "IX", "XXX", "XX", "X", ""]

def romanRegexMatch (l : List Char) : Option String :=
  romanAttempts.find? (fun pat => tokMatch pat l)

/-- Models Python's `s.rsplit('/', 1)`: `none` when there is no separator,
otherwise the part after the last separator. -/
def rsplitSuffix (c : Char) (s : String) : Option String :=
  match splitChar c s.data with
  | [] => none
  | [_] => none
  | ps => some ⟨ps.getLastD []⟩

/-- The composite sort key computed by `sort_subpages.sort_key` (lines
342-357): bucket 0 carries a numeric prefix value, bucket 1 a roman-numeral
value, bucket 2 the lower-cased suffix, bucket 3 (no separator) the whole
title. -/
inductive SortKey where
  | num (n : Nat) (suffix : String)
  | roman (n : Int) (suffix : String)
  | alpha (s : String)
  | whole (s : String)
deriving DecidableEq, Repr

/-- Embeds `sort_key` (lines 342-357). -/
def sort_key (s : String) : SortKey :=
  match rsplitSuffix '/' s with
  | none => .whole s
  | some suffix =>
    match leadingDigits suffix.data with
    | [] =>
      match romanRegexMatch suffix.data with
      | some g => .roman (roman_to_int g) suffix
      | none => .alpha (pyLower suffix)
    | ds => .num (digitsToNat ds) suffix

/-- Bucket index of a key (the first tuple component in the Python key). -/
def SortKey.rank : SortKey → Nat
  | .num _ _ => 0
  | .roman _ _ => 1
  | .alpha _ => 2
  | .whole _ => 3

/-- Numeric component of a key (0 for the purely textual buckets, which never
compare against the numeric ones: the bucket index differs). -/
def SortKey.val : SortKey → Int
  | .num n _ => (n : Int)
  | .roman n _ => n
  | .alpha _ => 0
  | .whole _ => 0

/-- Textual component of a key. -/
def SortKey.text : SortKey → String
  | .num _ s => s
  | .roman _ s => s
  | .alpha s => s
  | .whole s => s

/-- Code-point lexicographic order on character lists: models Python's string
comparison inside the sort-key tuples. -/
def charListLe : List Char → List Char → Bool
  | [], _ => true
  | _ :: _, [] => false
  | a :: as, b :: bs =>
    if a.toNat < b.toNat then true
    else if b.toNat < a.toNat then false
    else charListLe as bs

/-- Lexicographic comparison of `(bucket, numeric value, string)` triples:
models Python's tuple comparison between sort keys. -/
def tupleLe (r1 : Nat) (v1 : Int) (s1 : List Char) (r2 : Nat) (v2 : Int) (s2 : List Char) : Bool :=
  if r1 < r2 then true
  else if r2 < r1 then false
  else if v1 < v2 then true
  else if v2 < v1 then false
  else charListLe s1 s2

/-- Python tuple comparison on sort keys: bucket, then numeric value, then
string. -/
def keyLe (a b : SortKey) : Bool :=
  tupleLe a.rank a.val a.text.data b.rank b.val b.text.data

/-- Key order lifted to titles. -/
def titleLe (a b : String) : Prop := keyLe (sort_key a) (sort_key b) = true

instance : DecidableRel titleLe :=
  fun _ _ => inferInstanceAs (Decidable (_ = true))

/-- Embeds `sort_subpages` (lines 340-359): Python's `sorted` is a stable sort
by `sort_key`, modelled by stable insertion sort under `titleLe`. -/
def sort_subpages (l : List String) : List String :=
  List.insertionSort titleLe l

/-- Reflexivity of the code-point order. -/
theorem charListLe_refl : ∀ l : List Char, charListLe l l = true
  | [] => rfl
  | a :: as => by
    simp only [charListLe, lt_self_iff_false, if_false]
    exact charListLe_refl as

/-- Totality of the code-point order. -/
theorem charListLe_total : ∀ x y : List Char, charListLe x y = true ∨ charListLe y x = true
  | [], _ => Or.inl rfl
  | _ :: _, [] => Or.inr rfl
  | a :: as, b :: bs => by
    simp only [charListLe]
    rcases Nat.lt_trichotomy a.toNat b.toNat with h | h | h
    · left; rw [if_pos h]
    · rw [if_neg (by omega), if_neg (by omega), if_neg (by omega), if_neg (by omega)]
      exact charListLe_total as bs
    · right; rw [if_pos h]

/-- Transitivity of the code-point order. -/
theorem charListLe_trans : ∀ x y z : List Char,
    charListLe x y = true → charListLe y z = true → charListLe x z = true
  | [], _, _ => fun _ _ => rfl
  | _ :: _, [], _ => by intro h _; simp [charListLe] at h
  | _ :: _, _ :: _, [] => by intro _ h; simp [charListLe] at h
  | a :: as, b :: bs, c :: cs => by
    simp only [charListLe]
    intro h1 h2
    rcases Nat.lt_trichotomy a.toNat b.toNat with hab | hab | hab
    · rcases Nat.lt_trichotomy b.toNat c.toNat with hbc | hbc | hbc
      · rw [if_pos (by omega)]
      · rw [if_pos (by omega)]
      · rw [if_neg (by omega), if_pos hbc] at h2; simp at h2
    · rcases Nat.lt_trichotomy b.toNat c.toNat with hbc | hbc | hbc
      · rw [if_pos (by omega)]
      · rw [if_neg (by omega), if_neg (by omega)] at h1
        rw [if_neg (by omega), if_neg (by omega)] at h2
        rw [if_neg (by omega), if_neg (by omega)]
        exact charListLe_trans as bs cs h1 h2
      · rw [if_neg (by omega), if_pos (by omega)] at h2; simp at h2
    · rw [if_neg (by omega), if_pos hab] at h1; simp at h1

/-- Totality of the tuple order. -/
theorem tupleLe_total (r1 r2 : Nat) (v1 v2 : Int) (s1 s2 : List Char) :
    tupleLe r1 v1 s1 r2 v2 s2 = true ∨ tupleLe r2 v2 s2 r1 v1 s1 = true := by
  unfold tupleLe
  split_ifs <;>
    first
      | exact Or.inl rfl
      | exact Or.inr rfl
      | omega
      | exact charListLe_total s1 s2

/-- Transitivity of the tuple order. -/
theorem tupleLe_trans (r1 r2 r3 : Nat) (v1 v2 v3 : Int) (s1 s2 s3 : List Char)
    (h1 : tupleLe r1 v1 s1 r2 v2 s2 = true) (h2 : tupleLe r2 v2 s2 r3 v3 s3 = true) :
    tupleLe r1 v1 s1 r3 v3 s3 = true := by
  unfold tupleLe at h1 h2 ⊢
  split_ifs at h1 h2 ⊢ <;>
    first
      | rfl
      | omega
      | simp at h1
      | simp at h2
      | exact charListLe_trans s1 s2 s3 h1 h2

instance : IsTotal String titleLe :=
  ⟨fun _ _ => tupleLe_total _ _ _ _ _ _⟩

instance : IsTrans String titleLe :=
  ⟨fun _ _ _ h1 h2 => tupleLe_trans _ _ _ _ _ _ _ _ _ h1 h2⟩

/-- The roman-numeral clause as the claim words it: a maximal nonempty run of
roman-numeral letters at the start of the suffix ("I, II, III, IV, ... up to a
few thousand"), valued by `roman_to_int`; no trailing-context requirement. -/
def sort_key_claim (s : String) : SortKey :=
  match rsplitSuffix '/' s with
  | none => .whole s
  | some suffix =>
    match leadingDigits suffix.data with
    | [] =>
      let rom := suffix.data.takeWhile
        (fun c => ['I', 'V', 'X', 'L', 'C', 'D', 'M'].contains c.toUpper)
      if rom.isEmpty then .alpha (pyLower suffix)
      else .roman (roman_to_int ⟨rom.map Char.toUpper⟩) suffix
    | ds => .num (digitsToNat ds) suffix

/-- Key order of the claim's reading lifted to titles. -/
def titleLeClaim (a b : String) : Prop :=
  keyLe (sort_key_claim a) (sort_key_claim b) = true

instance : DecidableRel titleLeClaim :=
  fun _ _ => inferInstanceAs (Decidable (_ = true))

/-- The subpage ordering exactly as the claim words it. -/
def sort_subpages_claim (l : List String) : List String :=
  List.insertionSort titleLeClaim l

/-- C6 counterexample: the suffix `II` is a roman numeral by the claim's
reading, so the claim orders `Work/II` before the alphabetic `Work/B`; but the
code's regex `^(I{1,3}|IV|V|VI{0,3}|IX|X{0,3})\.?\s` requires a whitespace
character after the numeral, so the bare suffix `II` falls into the
alphabetic bucket and the code orders `Work/B` first. -/
theorem sort_subpages_ne_claim :
    sort_subpages ["Work/II", "Work/B"] = ["Work/B", "Work/II"] ∧
    sort_subpages_claim ["Work/II", "Work/B"] = ["Work/II", "Work/B"] := by
  constructor <;> decide

/-- The groups the compiled roman regex can return, with their integer values:
a limited set reaching at most 30 (not "a few thousand"), including the empty
group that `X{0,3}` may match. -/
def romanTokenValue : List (String × Int) :=
  [("I", 1), ("II", 2), ("III", 3), ("IV", 4), ("V", 5), ("VI", 6), ("VII", 7),
   ("VIII", 8), ("IX", 9), ("X", 10), ("XX", 20), ("XXX", 30), ("", 0)]

/-- Every successful roman-regex match returns one of the thirteen tokens of
`romanTokenValue`, and `roman_to_int` computes exactly the value the table
assigns. -/
theorem romanRegexMatch_mem (l : List Char) (g : String)
    (h : romanRegexMatch l = some g) :
    (g, roman_to_int g) ∈ romanTokenValue ∧ roman_to_int g ≤ 30 := by
  have hm := List.mem_of_find?_eq_some h
  simp only [romanAttempts, List.mem_cons, List.not_mem_nil, or_false] at hm
  rcases hm with rfl | rfl | rfl | rfl | rfl | rfl | rfl | rfl | rfl | rfl | rfl | rfl | rfl <;>
    decide

/-- C6 amended: the composite sort key is as the claim states, except that the
roman-numeral clause only applies when the suffix starts with one of the
thirteen groups `I, II, III, IV, V, VI, VII, VIII, IX, X, XX, XXX` or the
empty group (values at most 30, not "a few thousand"), matched
case-insensitively and followed by an optional period and a mandatory
whitespace character; numeric prefixes sort first by value, matched roman
prefixes next by the numeral's value, remaining suffixes lexicographically on
the lower-cased suffix, and titles without a separator last. -/
theorem sort_key_amended (s suffix : String) :
    (rsplitSuffix '/' s = none → sort_key s = .whole s) ∧
    (rsplitSuffix '/' s = some suffix →
      (∀ d ds, leadingDigits suffix.data = d :: ds →
        sort_key s = .num (digitsToNat (d :: ds)) suffix) ∧
      (leadingDigits suffix.data = [] →
        (∀ g, romanRegexMatch suffix.data = some g →
          ∃ v, (g, v) ∈ romanTokenValue ∧ v ≤ 30 ∧
            sort_key s = .roman v suffix) ∧
        (romanRegexMatch suffix.data = none →
          sort_key s = .alpha (pyLower suffix)))) := by
  refine ⟨fun h => ?_, fun h => ⟨fun d ds hd => ?_, fun hd => ⟨fun g hg => ?_, fun hg => ?_⟩⟩⟩
  · simp only [sort_key, h]
  · simp only [sort_key, h, hd]
  · refine ⟨roman_to_int g, (romanRegexMatch_mem _ _ hg).1,
      (romanRegexMatch_mem _ _ hg).2, ?_⟩
    simp only [sort_key, h, hd, hg]
  · simp only [sort_key, h, hd, hg]

/-- Witness for the amended C6 theorem: on the concrete title `Work/IX. a`
the regex matches the group `IX` and the key is the roman bucket with value 9. -/
theorem sort_key_amended_witness :
    ∃ v, (("IX" : String), v) ∈ romanTokenValue ∧ v ≤ 30 ∧
      sort_key "Work/IX. a" = .roman v "IX. a" := by
  have h := (((sort_key_amended "Work/IX. a" "IX. a").2 (by decide)).2 (by decide)).1
  exact h "IX" (by decide)

/-- The key order is reflexive. -/
theorem keyLe_refl (x : SortKey) : keyLe x x = true := by
  unfold keyLe tupleLe
  simp [charListLe_refl]

/-- C7: the subpage ordering is total and stable: it returns a permutation of
its input, re-ordering an already-ordered list is a no-op, titles with any
fixed sort key keep their relative input order, and the numeric suffixes of
`Work/2` and `Work/10` order numerically.  Determinism and absence of
mutation are inherent to the pure functional embedding. -/
theorem sort_subpages_props :
    (∀ l : List String, (sort_subpages l).Perm l) ∧
    (∀ l : List String, sort_subpages (sort_subpages l) = sort_subpages l) ∧
    (∀ (l : List String) (k : SortKey),
      (sort_subpages l).filter (fun t => decide (sort_key t = k))
        = l.filter (fun t => decide (sort_key t = k))) ∧
    sort_subpages ["Work/10", "Work/2"] = ["Work/2", "Work/10"] := by
  refine ⟨fun l => List.perm_insertionSort titleLe l,
    fun l => List.Sorted.insertionSort_eq (List.sorted_insertionSort titleLe l),
    ?_, by decide⟩
  intro l k
  have hpair : (l.filter (fun t => decide (sort_key t = k))).Pairwise titleLe := by
    apply List.pairwise_of_forall_mem_list
    intro a ha b hb
    have ha' := of_decide_eq_true (List.mem_filter.mp ha).2
    have hb' := of_decide_eq_true (List.mem_filter.mp hb).2
    unfold titleLe
    rw [ha', hb']
    exact keyLe_refl k
  have hsub : List.Sublist (l.filter (fun t => decide (sort_key t = k)))
      (List.insertionSort titleLe l) :=
    List.sublist_insertionSort hpair (List.filter_sublist l)
  have hsub2 := hsub.filter (fun t => decide (sort_key t = k))
  have hself : (l.filter (fun t => decide (sort_key t = k))).filter
      (fun t => decide (sort_key t = k)) = l.filter (fun t => decide (sort_key t = k)) :=
    List.filter_eq_self.mpr (fun a ha => (List.mem_filter.mp ha).2)
  rw [hself] at hsub2
  have hlen := ((List.perm_insertionSort titleLe l).filter
    (fun t => decide (sort_key t = k))).length_eq
  exact (hsub2.eq_of_length (by rw [hlen])).symm

/-! ### Text normalization (`html_to_text`, extract_wikisource.py lines 148-217)

The model covers `html_to_text` on plain-text input (input containing no HTML
tag or entity characters): BeautifulSoup parses such input as a single text
node, every `find_all` matches nothing, and `get_text` returns the input
unchanged, so exactly the text post-processing of lines 194-217 applies: the
line-cleanup loop, the `\n{4,}` normalization, the `[[...]]` and `{{...}}`
removal, and the final `strip()`. -/

/-- Python's whitespace (`str.strip()` with no argument, and the regex class
`\s`): the ASCII whitespace characters together with the other whitespace
code points that can appear in this pipeline. -/
def pyIsSpace (c : Char) : Bool :=
  c = ' ' || c = '\t' || c = '\n' || c = '\x0b' || c = '\x0c' || c = '\r' ||
  c = '\x1c' || c = '\x1d' || c = '\x1e' || c = '\x85' || c = '\xa0' ||
  c = '\u2028' || c = '\u2029'

/-- Line terminators of Python's `str.splitlines` (`\r\n` is treated as one
terminator by the splitter below). -/
def isLineTerm (c : Char) : Bool :=
  c = '\n' || c = '\r' || c = '\x0b' || c = '\x0c' ||
  c = '\x1c' || c = '\x1d' || c = '\x1e' || c = '\x85' ||
  c = '\u2028' || c = '\u2029'

/-- Worker for `pySplitlines`; `acc` holds the current line reversed. -/
def pySplitlinesAux : List Char → List Char → List (List Char)
  | [], acc => if acc.isEmpty then [] else [acc.reverse]
  | '\r' :: '\n' :: rest, acc => acc.reverse :: pySplitlinesAux rest []
  | c :: rest, acc =>
    if isLineTerm c then acc.reverse :: pySplitlinesAux rest []
    else pySplitlinesAux rest (c :: acc)

/-- Models Python's `str.splitlines()`. -/
def pySplitlines (l : List Char) : List (List Char) := pySplitlinesAux l []

/-- Drops the longest suffix of characters satisfying `p`. -/
def dropTrailWhile (p : Char → Bool) (l : List Char) : List Char :=
  (l.reverse.dropWhile p).reverse

/-- Models Python's `str.strip()`. -/
def pyStrip (l : List Char) : List Char :=
  dropTrailWhile pyIsSpace (l.dropWhile pyIsSpace)

/-- A nonempty line made solely of zero-width-space / no-break-space
characters (U+200B, U+00A0); such lines are skipped as invisible by the
cleanup loop (the zero-width-space test and the invisible-character regex of
lines 199-200). -/
def invisibleOnly (l : List Char) : Bool :=
  !l.isEmpty && l.all (fun c => c = '\u200b' || c = '\u00a0')

/-- The line-cleanup loop (lines 195-208): strips every line, keeps nonempty
visible lines, and collapses every run of blank (or invisible-only) lines to a
single empty line via the `prev_empty` flag. -/
def buildLines : List (List Char) → Bool → List (List Char)
  | [], _ => []
  | l :: ls, prevEmpty =>
    let s := pyStrip l
    if !s.isEmpty && !invisibleOnly s then s :: buildLines ls false
    else if !prevEmpty then [] :: buildLines ls true
    else buildLines ls prevEmpty

/-- Worker for `collapseNL`: `pending` counts the newlines of the current run. -/
def collapseNLAux : Nat → List Char → List Char
  | pending, [] => List.replicate (if pending ≥ 4 then 3 else pending) '\n'
  | pending, c :: rest =>
    if c = '\n' then collapseNLAux (pending + 1) rest
    else
      List.replicate (if pending ≥ 4 then 3 else pending) '\n' ++
        c :: collapseNLAux 0 rest

/-- Models `re.sub(r'\n{4,}', '\n\n\n', text)` (line 211): every run of four
or more newlines becomes exactly three. -/
def collapseNL (l : List Char) : List Char := collapseNLAux 0 l

/-- States of the lazy-pair-removal machine. -/
inductive RemSt where
  | normal
  | opened
  | buffering
  | closeSeen
deriving DecidableEq, Repr

/-- One-character-per-step machine for `re.sub(o + o + '.*?' + k + k, '', text)`
with `.` not matching newlines (the `[[...]]` and `{{...}}` removal of lines
214-215): after an `oo` the machine buffers until the earliest `kk` (removing
the whole match), or flushes the buffer verbatim at a newline or at the end of
input (where the regex cannot complete, and no later start inside the buffer
can complete either, since the buffer contains no `kk` and the same newline or
end of input follows). -/
def rpAux (o k : Char) : RemSt → List Char → List Char → List Char
  | .normal, _, [] => []
  | .normal, _, c :: rest =>
    if c = o then rpAux o k .opened [] rest
    else c :: rpAux o k .normal [] rest
  | .opened, _, [] => [o]
  | .opened, _, c :: rest =>
    if c = o then rpAux o k .buffering [] rest
    else o :: c :: rpAux o k .normal [] rest
  | .buffering, buf, [] => o :: o :: buf.reverse
  | .buffering, buf, c :: rest =>
    if c = k then rpAux o k .closeSeen buf rest
    else if c = '\n' then o :: o :: buf.reverse ++ '\n' :: rpAux o k .normal [] rest
    else rpAux o k .buffering (c :: buf) rest
  | .closeSeen, buf, [] => o :: o :: buf.reverse ++ [k]
  | .closeSeen, buf, c :: rest =>
    if c = k then rpAux o k .normal [] rest
    else if c = '\n' then o :: o :: buf.reverse ++ k :: '\n' :: rpAux o k .normal [] rest
    else rpAux o k .buffering (c :: k :: buf) rest

/-- Removal of all `oo...kk` wiki constructs. -/
def removePaired (o k : Char) (l : List Char) : List Char := rpAux o k .normal [] l

/-- Joins lines with single newlines (`'\n'.join(lines)`, line 208). -/
def joinNL : List (List Char) → List Char
  | [] => []
  | [m] => m
  | m :: rest => m ++ '\n' :: joinNL rest

/-- The line cleanup of `html_to_text` (lines 195-208): split into lines,
strip and filter them, and join with single newlines. -/
def normalizeLines (l : List Char) : List Char :=
  joinNL (buildLines (pySplitlines l) false)

/-- Embeds `html_to_text` (lines 148-217) on plain-text input: the line
cleanup, the `\n{4,}` normalization, removal of `[[...]]` wiki links and of
`{{...}}` templates, and the final `strip()`, in the order of the source. -/
def html_to_text (s : String) : String :=
  ⟨pyStrip (removePaired '{' '}' (removePaired '[' ']'
    (collapseNL (normalizeLines s.data))))⟩

/-- C8 counterexample: on the plain-text input `a\n[[1]]\n[[2]]\nb` the first
pass removes the two wiki links after the line cleanup has already run,
leaving the two newly blank lines in place (`a\n\n\nb`); the second pass
collapses them to a single blank line, so `html_to_text` is not idempotent. -/
theorem html_to_text_not_idempotent :
    html_to_text "a\n[[1]]\n[[2]]\nb" = "a\n\n\nb" ∧
    html_to_text (html_to_text "a\n[[1]]\n[[2]]\nb") = "a\n\nb" ∧
    html_to_text (html_to_text "a\n[[1]]\n[[2]]\nb") ≠
      html_to_text "a\n[[1]]\n[[2]]\nb" := by
  refine ⟨by decide, by decide, by decide⟩

/-- C9 counterexample: the line cleanup collapses a run of three blank lines
to a single blank line (not to exactly two, and runs of up to two blank lines
are not preserved); and after the `\n{4,}` pass has already run, wiki-link
removal can leave more than two consecutive blank lines in the final output
(here three: four consecutive newlines). -/
theorem html_to_text_blank_lines_ne_claim :
    html_to_text "a\n\n\n\nb" = "a\n\nb" ∧
    html_to_text "a\n\n\nb" = "a\n\nb" ∧
    html_to_text "a\n[[1]]\n[[2]]\n[[3]]\nb" = "a\n\n\n\nb" := by
  refine ⟨by decide, by decide, by decide⟩

/-- Detects two adjacent occurrences of the character `o` (the start or end
marker of a wiki construct). -/
def hasDouble (o : Char) : List Char → Bool
  | a :: b :: t => (a = o && b = o) || hasDouble o (b :: t)
  | _ => false

/-- Lines with no adjacent pair keep having none after dropping the head. -/
theorem hasDouble_cons {o c : Char} {t : List Char}
    (h : hasDouble o (c :: t) = false) : hasDouble o t = false := by
  cases t with
  | nil => rfl
  | cons d t' =>
    unfold hasDouble at h
    exact (Bool.or_eq_false_iff.mp h).2

/-- Prepending a character different from `o` cannot create an adjacent pair. -/
theorem hasDouble_cons_of {o c : Char} (hco : c ≠ o) {t : List Char}
    (h : hasDouble o t = false) : hasDouble o (c :: t) = false := by
  cases t with
  | nil => rfl
  | cons d t' =>
    unfold hasDouble
    simp only [Bool.or_eq_false_iff]
    exact ⟨by simp [hco], h⟩

/-- A suffix of a pair-free list is pair-free. -/
theorem hasDouble_append_left (o : Char) :
    ∀ u m : List Char, hasDouble o (u ++ m) = false → hasDouble o m = false
  | [], _ => fun h => h
  | _ :: u', m => fun h => hasDouble_append_left o u' m (hasDouble_cons h)

/-- A prefix of a pair-free list is pair-free. -/
theorem hasDouble_append_right (o : Char) :
    ∀ m v : List Char, hasDouble o (m ++ v) = false → hasDouble o m = false
  | [], _ => fun _ => rfl
  | [_], _ => fun _ => rfl
  | a :: b :: m', v => fun h => by
    unfold hasDouble at h ⊢
    simp only [List.cons_append, Bool.or_eq_false_iff] at h
    simp only [Bool.or_eq_false_iff]
    exact ⟨h.1, hasDouble_append_right o (b :: m') v h.2⟩

/-- Any contiguous part of a pair-free list is pair-free. -/
theorem hasDouble_infix {o : Char} {m l : List Char}
    (hinf : ∃ u v, l = u ++ m ++ v) (h : hasDouble o l = false) :
    hasDouble o m = false := by
  obtain ⟨u, v, rfl⟩ := hinf
  exact hasDouble_append_right o m v
    (hasDouble_append_left o u (m ++ v) (by simpa using h))

/-- Joining pair-free lists around a separator different from `o` is
pair-free. -/
theorem hasDouble_append_sep {o c : Char} (hco : c ≠ o) :
    ∀ a b : List Char, hasDouble o a = false → hasDouble o b = false →
      hasDouble o (a ++ c :: b) = false
  | [], b => fun _ hb => hasDouble_cons_of hco hb
  | [x], b => fun _ hb => by
    unfold hasDouble
    simp only [List.singleton_append, Bool.or_eq_false_iff]
    exact ⟨by simp [hco], hasDouble_cons_of hco hb⟩
  | x :: y :: a', b => fun ha hb => by
    unfold hasDouble at ha ⊢
    simp only [List.cons_append, Bool.or_eq_false_iff] at ha ⊢
    exact ⟨ha.1, by
      have := hasDouble_append_sep hco (y :: a') b ha.2 hb
      simpa using this⟩

/-- The head of a `dropWhile` result does not satisfy the predicate. -/
theorem head?_dropWhile (p : Char → Bool) :
    ∀ (l : List Char) (c : Char), (l.dropWhile p).head? = some c → p c = false
  | [], c => by simp
  | a :: t, c => by
    by_cases h : p a
    · rw [List.dropWhile_cons, if_pos h]
      exact head?_dropWhile p t c
    · rw [List.dropWhile_cons, if_neg h]
      intro hc
      rw [List.head?_cons, Option.some.injEq] at hc
      subst hc
      simpa using h

/-- `dropWhile` is the identity when the head does not satisfy the predicate. -/
theorem dropWhile_eq_self (p : Char → Bool) (l : List Char)
    (h : ∀ c, l.head? = some c → p c = false) : l.dropWhile p = l := by
  cases l with
  | nil => rfl
  | cons a t => rw [List.dropWhile_cons, if_neg (by simp [h a rfl])]

/-- `dropTrailWhile` is the identity when the last element does not satisfy
the predicate. -/
theorem dropTrail_eq_self (p : Char → Bool) (l : List Char)
    (h : ∀ c, l.reverse.head? = some c → p c = false) : dropTrailWhile p l = l := by
  unfold dropTrailWhile
  rw [dropWhile_eq_self p l.reverse h, List.reverse_reverse]

/-- A stripped line is a prefix of the front-stripped line. -/
theorem pyStrip_prefix_parts (l : List Char) :
    ∃ w, l.dropWhile pyIsSpace = pyStrip l ++ w := by
  unfold pyStrip dropTrailWhile
  refine ⟨((l.dropWhile pyIsSpace).reverse.takeWhile pyIsSpace).reverse, ?_⟩
  have h2 : (l.dropWhile pyIsSpace).reverse =
      (l.dropWhile pyIsSpace).reverse.takeWhile pyIsSpace ++
        (l.dropWhile pyIsSpace).reverse.dropWhile pyIsSpace :=
    (List.takeWhile_append_dropWhile pyIsSpace _).symm
  have h3 := congrArg List.reverse h2
  rw [List.reverse_reverse, List.reverse_append] at h3
  exact h3

/-- Decomposition: `pyStrip l` is a contiguous part of `l`. -/
theorem pyStrip_parts (l : List Char) : ∃ u v, l = u ++ pyStrip l ++ v := by
  obtain ⟨w, hw⟩ := pyStrip_prefix_parts l
  refine ⟨l.takeWhile pyIsSpace, w, ?_⟩
  conv_lhs => rw [← List.takeWhile_append_dropWhile pyIsSpace l]
  rw [hw, List.append_assoc]

/-- Helper: the head of a list that starts with a nonempty prefix `e` is the
head of `e`. -/
theorem head?_of_parts {e w l : List Char} (h : l = e ++ w) {c : Char}
    (hc : e.head? = some c) : l.head? = some c := by
  subst h; cases e <;> simp_all

/-- The head of a stripped line is not whitespace. -/
theorem pyStrip_head (l : List Char) {c : Char}
    (h : (pyStrip l).head? = some c) : pyIsSpace c = false := by
  obtain ⟨w, hw⟩ := pyStrip_prefix_parts l
  exact head?_dropWhile pyIsSpace l c (head?_of_parts hw h)

/-- The last character of a stripped line is not whitespace. -/
theorem pyStrip_last (l : List Char) {c : Char}
    (h : (pyStrip l).reverse.head? = some c) : pyIsSpace c = false := by
  unfold pyStrip dropTrailWhile at h
  rw [List.reverse_reverse] at h
  exact head?_dropWhile pyIsSpace _ c h

/-- Stripping is the identity on lines with non-whitespace ends. -/
theorem pyStrip_eq_self (l : List Char)
    (hh : ∀ c, l.head? = some c → pyIsSpace c = false)
    (hl : ∀ c, l.reverse.head? = some c → pyIsSpace c = false) :
    pyStrip l = l := by
  unfold pyStrip
  rw [dropWhile_eq_self pyIsSpace l hh]
  exact dropTrail_eq_self pyIsSpace l hl

/-- Stripping is idempotent. -/
theorem pyStrip_idem (l : List Char) : pyStrip (pyStrip l) = pyStrip l :=
  pyStrip_eq_self (pyStrip l) (fun _ h => pyStrip_head l h) (fun _ h => pyStrip_last l h)

set_option maxHeartbeats 1000000 in
/-- Every line produced by the splitter is free of line terminators and is a
contiguous part of the accumulated input. -/
theorem pySplitlinesAux_mem : ∀ (l acc : List Char),
    (∀ c ∈ acc, isLineTerm c = false) →
    ∀ m ∈ pySplitlinesAux l acc,
      (∃ u v, acc.reverse ++ l = u ++ m ++ v) ∧ ∀ c ∈ m, isLineTerm c = false := by
  intro l acc
  induction l, acc using pySplitlinesAux.induct with
  | case1 acc he =>
    intro hacc m hm
    rw [pySplitlinesAux, if_pos he] at hm
    exact absurd hm (List.not_mem_nil m)
  | case2 acc he =>
    intro hacc m hm
    rw [pySplitlinesAux, if_neg he, List.mem_singleton] at hm
    subst hm
    exact ⟨⟨[], [], by simp⟩, fun c hc => hacc c (by simpa using hc)⟩
  | case3 rest acc ih =>
    intro hacc m hm
    rw [pySplitlinesAux] at hm
    rcases List.mem_cons.mp hm with rfl | hm'
    · exact ⟨⟨[], '\r' :: '\n' :: rest, by simp⟩,
        fun c hc => hacc c (by simpa using hc)⟩
    · obtain ⟨⟨u, v, huv⟩, hterm⟩ := ih (by simp) m hm'
      refine ⟨⟨acc.reverse ++ '\r' :: '\n' :: u, v, ?_⟩, hterm⟩
      simp only [List.reverse_nil, List.nil_append] at huv
      simp [huv, List.append_assoc]
  | case4 c rest acc hne hterm ih =>
    intro hacc m hm
    rw [pySplitlinesAux, if_pos hterm] at hm
    · rcases List.mem_cons.mp hm with rfl | hm'
      · exact ⟨⟨[], c :: rest, by simp⟩, fun d hd => hacc d (by simpa using hd)⟩
      · obtain ⟨⟨u, v, huv⟩, ht⟩ := ih (by simp) m hm'
        refine ⟨⟨acc.reverse ++ c :: u, v, ?_⟩, ht⟩
        simp only [List.reverse_nil, List.nil_append] at huv
        simp [huv, List.append_assoc]
    · exact hne
  | case5 c rest acc hne hterm ih =>
    intro hacc m hm
    rw [pySplitlinesAux, if_neg hterm] at hm
    · have hc : isLineTerm c = false := by simpa using hterm
      obtain ⟨⟨u, v, huv⟩, ht⟩ :=
        ih (by
          intro d hd
          rcases List.mem_cons.mp hd with rfl | hd'
          · exact hc
          · exact hacc d hd') m hm
      refine ⟨⟨u, v, ?_⟩, ht⟩
      rw [List.reverse_cons, List.append_assoc] at huv
      simpa using huv
    · exact hne

/-- Lines of `pySplitlines x` are terminator-free contiguous parts of `x`. -/
theorem pySplitlines_mem {x m : List Char} (hm : m ∈ pySplitlines x) :
    (∃ u v, x = u ++ m ++ v) ∧ ∀ c ∈ m, isLineTerm c = false := by
  have h := pySplitlinesAux_mem x [] (by simp) m hm
  simpa using h

/-- A terminator-free prefix only accumulates in the splitter. -/
theorem pySplitlinesAux_append : ∀ (m t acc : List Char),
    (∀ c ∈ m, isLineTerm c = false) →
    pySplitlinesAux (m ++ t) acc = pySplitlinesAux t (m.reverse ++ acc)
  | [], t, acc => fun _ => by simp
  | c :: m', t, acc => fun h => by
    have hc : isLineTerm c = false := h c (by simp)
    have step : pySplitlinesAux (c :: (m' ++ t)) acc
        = pySplitlinesAux (m' ++ t) (c :: acc) := by
      rw [pySplitlinesAux]
      · rw [if_neg (by simp [hc])]
      · intro r1 hceq hrest
        subst hceq
        simp [isLineTerm] at hc
    calc pySplitlinesAux ((c :: m') ++ t) acc
        = pySplitlinesAux (m' ++ t) (c :: acc) := step
      _ = pySplitlinesAux t (m'.reverse ++ (c :: acc)) :=
          pySplitlinesAux_append m' t (c :: acc) (fun d hd => h d (by simp [hd]))
      _ = pySplitlinesAux t ((c :: m').reverse ++ acc) := by
          simp [List.reverse_cons, List.append_assoc]

/-- Splitting a single terminator-free nonempty line. -/
theorem pySplitlines_single (m : List Char) (hm : ∀ c ∈ m, isLineTerm c = false)
    (hne : m ≠ []) : pySplitlines m = [m] := by
  unfold pySplitlines
  calc pySplitlinesAux m [] = pySplitlinesAux ([] : List Char) (m.reverse ++ []) := by
        rw [← pySplitlinesAux_append m [] [] hm]
        simp
    _ = [m] := by
        rw [pySplitlinesAux, if_neg (by simp [hne])]
        simp

/-- Splitting a terminator-free line followed by a newline. -/
theorem pySplitlines_line_cons (m t : List Char)
    (hm : ∀ c ∈ m, isLineTerm c = false) :
    pySplitlines (m ++ '\n' :: t) = m :: pySplitlines t := by
  unfold pySplitlines
  rw [pySplitlinesAux_append m ('\n' :: t) [] hm]
  rw [pySplitlinesAux]
  · rw [if_pos (by decide)]
    simp
  · intro r1 hceq hrest
    exact absurd hceq (by decide)

/-- Splitting inverts joining for terminator-free lines whose last line is
nonempty. -/
theorem pySplitlines_joinNL : ∀ L : List (List Char),
    (∀ m ∈ L, ∀ c ∈ m, isLineTerm c = false) →
    L.getLast? ≠ some [] →
    pySplitlines (joinNL L) = L
  | [] => fun _ _ => rfl
  | [m] => fun hter hlast => by
    have hm : m ≠ [] := by
      intro he
      subst he
      exact hlast rfl
    exact pySplitlines_single m (hter m (by simp)) hm
  | m :: r :: rest => fun hter hlast => by
    have hj : joinNL (m :: r :: rest) = m ++ '\n' :: joinNL (r :: rest) := rfl
    rw [hj, pySplitlines_line_cons m _ (hter m (by simp))]
    rw [pySplitlines_joinNL (r :: rest) (fun n hn => hter n (by simp [hn]))
      (by simpa [List.getLast?_cons_cons] using hlast)]

/-- Detects two adjacent empty lines in a line list. -/
def hasPairEmpty : List (List Char) → Bool
  | a :: b :: t => (a.isEmpty && b.isEmpty) || hasPairEmpty (b :: t)
  | _ => false

/-- Dropping the head preserves freedom from adjacent empty lines. -/
theorem hasPairEmpty_cons {t : List (List Char)} {a : List Char}
    (h : hasPairEmpty (a :: t) = false) : hasPairEmpty t = false := by
  cases t with
  | nil => rfl
  | cons b t' =>
    unfold hasPairEmpty at h
    exact (Bool.or_eq_false_iff.mp h).2

/-- Prepending a nonempty line preserves freedom from adjacent empties. -/
theorem hasPairEmpty_cons_of_ne {a : List Char} {t : List (List Char)}
    (ha : a ≠ []) (h : hasPairEmpty t = false) : hasPairEmpty (a :: t) = false := by
  cases t with
  | nil => rfl
  | cons b t' =>
    unfold hasPairEmpty
    simp only [Bool.or_eq_false_iff]
    exact ⟨by simp [ha], h⟩

/-- Prepending any line before a nonempty head preserves freedom from
adjacent empties. -/
theorem hasPairEmpty_cons_of_head {a : List Char} {t : List (List Char)}
    (hht : ∀ m, t.head? = some m → m ≠ []) (h : hasPairEmpty t = false) :
    hasPairEmpty (a :: t) = false := by
  cases t with
  | nil => rfl
  | cons b t' =>
    unfold hasPairEmpty
    simp only [Bool.or_eq_false_iff]
    refine ⟨by simp [hht b rfl], h⟩

/-- After an empty line, a pair-free list continues with a nonempty line. -/
theorem hasPairEmpty_head {rest : List (List Char)}
    (h : hasPairEmpty ([] :: rest) = false) :
    ∀ m, rest.head? = some m → m ≠ [] := by
  cases rest with
  | nil => intro m hm; simp at hm
  | cons b t =>
    intro m hm
    rw [List.head?_cons, Option.some.injEq] at hm
    subst hm
    unfold hasPairEmpty at h
    have := (Bool.or_eq_false_iff.mp h).1
    simpa using this

/-- The line cleanup never emits two adjacent empty lines, and after an
emitted empty line (flag `true`) it starts with a nonempty line. -/
theorem buildLines_pairFree : ∀ (ls : List (List Char)) (b : Bool),
    hasPairEmpty (buildLines ls b) = false ∧
      (b = true → ∀ m, (buildLines ls b).head? = some m → m ≠ [])
  | [], _ => ⟨rfl, by simp [buildLines]⟩
  | l :: ls, b => by
    simp only [buildLines]
    by_cases hk : (!(pyStrip l).isEmpty && !invisibleOnly (pyStrip l)) = true
    · rw [if_pos hk]
      constructor
      · refine hasPairEmpty_cons_of_ne ?_ (buildLines_pairFree ls false).1
        intro he
        rw [he] at hk
        simp at hk
      · intro _ m hm
        rw [List.head?_cons, Option.some.injEq] at hm
        subst hm
        intro he
        rw [he] at hk
        simp at hk
    · rw [if_neg hk]
      by_cases hb : (!b) = true
      · rw [if_pos hb]
        refine ⟨?_, ?_⟩
        · exact hasPairEmpty_cons_of_head
            (fun m hm => (buildLines_pairFree ls true).2 rfl m hm)
            (buildLines_pairFree ls true).1
        · intro hbt
          rw [hbt] at hb
          simp at hb
      · rw [if_neg hb]
        exact ⟨(buildLines_pairFree ls b).1, fun hbt m hm =>
          (buildLines_pairFree ls b).2 hbt m hm⟩

/-- The line cleanup is the identity on already-cleaned line lists. -/
theorem buildLines_fix : ∀ (L : List (List Char)) (b : Bool),
    (∀ m ∈ L, pyStrip m = m ∧ (m ≠ [] → invisibleOnly m = false)) →
    hasPairEmpty L = false →
    (b = true → ∀ m, L.head? = some m → m ≠ []) →
    buildLines L b = L
  | [], _ => fun _ _ _ => rfl
  | m :: rest, b => fun hm hp hh => by
    obtain ⟨hstrip, hinv⟩ := hm m (by simp)
    by_cases hne : m = []
    · subst hne
      have hb : b = false := by
        cases b with
        | false => rfl
        | true => exact absurd rfl (hh rfl [] rfl)
      subst hb
      simp only [buildLines]
      rw [show pyStrip ([] : List Char) = [] from rfl]
      rw [if_neg (by simp), if_pos (by simp)]
      congr 1
      exact buildLines_fix rest true (fun n hn => hm n (by simp [hn]))
        (hasPairEmpty_cons hp) (fun _ => hasPairEmpty_head hp)
    · simp only [buildLines]
      rw [hstrip, if_pos (by
        simp only [Bool.and_eq_true, Bool.not_eq_true']
        exact ⟨by simpa using hne, hinv hne⟩)]
      congr 1
      exact buildLines_fix rest false (fun n hn => hm n (by simp [hn]))
        (hasPairEmpty_cons hp) (by simp)

/-- Every line the cleanup emits is empty or the strip of an input line that
is nonempty and visible. -/
theorem buildLines_mem : ∀ (ls : List (List Char)) (b : Bool) (m : List Char),
    m ∈ buildLines ls b →
    m = [] ∨ ∃ l ∈ ls, m = pyStrip l ∧ m ≠ [] ∧ invisibleOnly m = false
  | [], _, m => fun hm => by simp [buildLines] at hm
  | l :: ls, b, m => fun hm => by
    simp only [buildLines] at hm
    by_cases hk : (!(pyStrip l).isEmpty && !invisibleOnly (pyStrip l)) = true
    · rw [if_pos hk] at hm
      rcases List.mem_cons.mp hm with rfl | hm'
      · refine Or.inr ⟨l, by simp, rfl, ?_, ?_⟩
        · intro he
          rw [he] at hk
          simp at hk
        · simp only [Bool.and_eq_true, Bool.not_eq_true'] at hk
          exact hk.2
      · rcases buildLines_mem ls false m hm' with h | ⟨l', hl', hrest⟩
        · exact Or.inl h
        · exact Or.inr ⟨l', by simp [hl'], hrest⟩
    · rw [if_neg hk] at hm
      by_cases hb : (!b) = true
      · rw [if_pos hb] at hm
        rcases List.mem_cons.mp hm with rfl | hm'
        · exact Or.inl rfl
        · rcases buildLines_mem ls true m hm' with h | ⟨l', hl', hrest⟩
          · exact Or.inl h
          · exact Or.inr ⟨l', by simp [hl'], hrest⟩
      · rw [if_neg hb] at hm
        rcases buildLines_mem ls b m hm with h | ⟨l', hl', hrest⟩
        · exact Or.inl h
        · exact Or.inr ⟨l', by simp [hl'], hrest⟩

/-- Checks that every run of consecutive newlines is bounded: a newline costs
one unit of the remaining `budget` of the current run, any other character
resets the budget to `reset`. -/
def nlRunOk (reset : Nat) : Nat → List Char → Bool
  | _, [] => true
  | budget, c :: rest =>
    if c = '\n' then decide (budget ≠ 0) && nlRunOk reset (budget - 1) rest
    else nlRunOk reset reset rest

/-- Raising the reset value and the budget preserves the run check. -/
theorem nlRunOk_mono : ∀ (l : List Char) (r r' b b' : Nat), r ≤ r' → b ≤ b' →
    nlRunOk r b l = true → nlRunOk r' b' l = true
  | [], _, _, _, _ => fun _ _ _ => rfl
  | c :: rest, r, r', b, b' => fun hr hb h => by
    unfold nlRunOk at h ⊢
    by_cases hc : c = '\n'
    · rw [if_pos hc] at h ⊢
      simp only [Bool.and_eq_true, decide_eq_true_eq] at h ⊢
      exact ⟨by omega, nlRunOk_mono rest r r' (b - 1) (b' - 1) hr (by omega) h.2⟩
    · rw [if_neg hc] at h ⊢
      exact nlRunOk_mono rest r r' r r' hr hr h

/-- A newline-free list passes the run check with any budget. -/
theorem nlRunOk_noNL : ∀ (l : List Char) (r b : Nat),
    (∀ c ∈ l, c ≠ '\n') → nlRunOk r b l = true
  | [], _, _ => fun _ => rfl
  | c :: rest, r, b => fun h => by
    unfold nlRunOk
    rw [if_neg (h c (by simp))]
    exact nlRunOk_noNL rest r r (fun d hd => h d (by simp [hd]))

/-- Prepending a nonempty newline-free list resets the budget. -/
theorem nlRunOk_append_noNL : ∀ (m t : List Char) (r b : Nat),
    (∀ c ∈ m, c ≠ '\n') → m ≠ [] →
    nlRunOk r b (m ++ t) = nlRunOk r r t
  | [], _, _, _ => fun _ hne => absurd rfl hne
  | [c], t, r, b => fun h _ => by
    simp only [List.singleton_append]
    conv_lhs => rw [nlRunOk]
    rw [if_neg (h c (by simp))]
  | c :: c' :: m'', t, r, b => fun h _ => by
    have hstep : nlRunOk r b ((c :: c' :: m'') ++ t) = nlRunOk r r ((c' :: m'') ++ t) := by
      simp only [List.cons_append]
      conv_lhs => rw [nlRunOk]
      rw [if_neg (h c (by simp))]
    rw [hstep, nlRunOk_append_noNL (c' :: m'') t r r (fun d hd => h d (by simp [hd]))
      (by simp)]

/-- Joined cleaned lines have newline runs of length at most two: budget one
suffices at the start, and budget zero when the first line is nonempty. -/
theorem joinNL_runOk : ∀ L : List (List Char),
    (∀ m ∈ L, ∀ c ∈ m, c ≠ '\n') → hasPairEmpty L = false →
    nlRunOk 2 1 (joinNL L) = true ∧
      ((∀ m, L.head? = some m → m ≠ []) → nlRunOk 2 0 (joinNL L) = true)
  | [] => fun _ _ => ⟨rfl, fun _ => rfl⟩
  | [m] => fun h _ => by
    refine ⟨nlRunOk_noNL m 2 1 (h m (by simp)), fun _ => nlRunOk_noNL m 2 0 (h m (by simp))⟩
  | m :: r0 :: rest => fun h hp => by
    have hJ := joinNL_runOk (r0 :: rest) (fun n hn => h n (by simp [hn]))
      (hasPairEmpty_cons hp)
    have hj : joinNL (m :: r0 :: rest) = m ++ '\n' :: joinNL (r0 :: rest) := rfl
    by_cases hne : m = []
    · subst hne
      refine ⟨?_, fun hhd => absurd rfl (hhd [] rfl)⟩
      rw [hj]
      simp only [List.nil_append]
      unfold nlRunOk
      rw [if_pos rfl]
      simp only [Bool.and_eq_true, decide_eq_true_eq]
      refine ⟨by omega, ?_⟩
      exact hJ.2 (hasPairEmpty_head hp)
    · have hstep : ∀ b : Nat, nlRunOk 2 b (joinNL (m :: r0 :: rest)) = true := by
        intro b
        rw [hj, nlRunOk_append_noNL m _ 2 b (h m (by simp)) hne]
        unfold nlRunOk
        rw [if_pos rfl]
        simp only [Bool.and_eq_true, decide_eq_true_eq]
        exact ⟨by omega, hJ.1⟩
      exact ⟨hstep 1, fun _ => hstep 0⟩

/-- The `\n{4,}` normalization is the identity on lists whose newline runs
never exceed the remaining budget. -/
theorem collapseNLAux_id : ∀ (l : List Char) (p : Nat), p ≤ 3 →
    nlRunOk 3 (3 - p) l = true →
    collapseNLAux p l = List.replicate p '\n' ++ l
  | [], p => fun hp _ => by
    unfold collapseNLAux
    rw [if_neg (by omega)]
    simp
  | c :: rest, p => fun hp h => by
    unfold collapseNLAux
    by_cases hc : c = '\n'
    · rw [if_pos hc]
      unfold nlRunOk at h
      rw [if_pos hc] at h
      simp only [Bool.and_eq_true, decide_eq_true_eq] at h
      have hlt : p < 3 := by omega
      rw [collapseNLAux_id rest (p + 1) (by omega) (by
        have : 3 - (p + 1) = 3 - p - 1 := by omega
        rw [this]
        exact h.2)]
      rw [List.replicate_succ' ]
      subst hc
      simp [List.append_assoc]
    · rw [if_neg hc, if_neg (by omega)]
      unfold nlRunOk at h
      rw [if_neg hc] at h
      rw [collapseNLAux_id rest 0 (by omega) (by simpa using h)]
      simp

/-- The `\n{4,}` normalization is the identity when newline runs stay at
length at most three. -/
theorem collapseNL_id (l : List Char) (h : nlRunOk 3 3 l = true) :
    collapseNL l = l := by
  unfold collapseNL
  rw [collapseNLAux_id l 0 (by omega) (by simpa using h)]
  simp

/-- Joining pair-free lines with newlines stays pair-free (for markers other
than the newline). -/
theorem hasDouble_joinNL {o : Char} (ho : o ≠ '\n') : ∀ L : List (List Char),
    (∀ m ∈ L, hasDouble o m = false) → hasDouble o (joinNL L) = false
  | [] => fun _ => rfl
  | [m] => fun h => h m (by simp)
  | m :: r0 :: rest => fun h => by
    have hj : joinNL (m :: r0 :: rest) = m ++ '\n' :: joinNL (r0 :: rest) := rfl
    rw [hj]
    exact hasDouble_append_sep (by simp [Ne.symm ho]) m _ (h m (by simp))
      (hasDouble_joinNL ho (r0 :: rest) (fun n hn => h n (by simp [hn])))

/-- The pair-removal machine is the identity on pair-free text. -/
theorem rpAux_id (o k : Char) : ∀ l : List Char,
    hasDouble o l = false → rpAux o k .normal [] l = l
  | [] => fun _ => rfl
  | [c] => fun _ => by
    unfold rpAux
    by_cases hc : c = o
    · rw [if_pos hc, hc]
      rfl
    · rw [if_neg hc]
      rfl
  | c :: d :: rest => fun h => by
    unfold hasDouble at h
    rw [Bool.or_eq_false_iff] at h
    obtain ⟨hpair, hrest⟩ := h
    unfold rpAux
    by_cases hc : c = o
    · rw [if_pos hc]
      have hd : d ≠ o := by
        intro he
        rw [hc, he] at hpair
        simp at hpair
      unfold rpAux
      rw [if_neg hd, hc]
      rw [rpAux_id o k rest (hasDouble_cons hrest)]
    · rw [if_neg hc]
      rw [rpAux_id o k (d :: rest) hrest]

/-- Pair removal is the identity on pair-free text. -/
theorem removePaired_id {o : Char} (k : Char) {l : List Char}
    (h : hasDouble o l = false) : removePaired o k l = l :=
  rpAux_id o k l h

/-- Drops a single leading empty line (the final `strip()` removes the newline
it would contribute). -/
def dropLeadEmptyLL : List (List Char) → List (List Char)
  | [] :: rest => rest
  | L => L

/-- Drops a single trailing empty line. -/
def dropTrailEmptyLL : List (List Char) → List (List Char)
  | [] => []
  | [m] => if m.isEmpty then [] else [m]
  | m :: rest => m :: dropTrailEmptyLL rest

/-- The lines surviving the final `strip()` of the text. -/
def trimEmpties (L : List (List Char)) : List (List Char) :=
  dropTrailEmptyLL (dropLeadEmptyLL L)

/-- Members survive dropping the leading empty. -/
theorem mem_dropLeadEmptyLL {L : List (List Char)} {n : List Char}
    (h : n ∈ dropLeadEmptyLL L) : n ∈ L := by
  match L with
  | [] => exact h
  | [] :: rest => exact List.mem_cons_of_mem _ h
  | (c :: m') :: rest => exact h

/-- Members survive dropping the trailing empty. -/
theorem mem_dropTrailEmptyLL : ∀ {L : List (List Char)} {n : List Char},
    n ∈ dropTrailEmptyLL L → n ∈ L := by
  intro L
  match L with
  | [] => intro n h; exact h
  | [m] =>
    intro n h
    unfold dropTrailEmptyLL at h
    by_cases hm : m.isEmpty
    · rw [if_pos hm] at h
      simp at h
    · rw [if_neg hm] at h
      exact h
  | m :: r :: rest =>
    intro n h
    rcases List.mem_cons.mp h with rfl | h'
    · simp
    · exact List.mem_cons_of_mem _ (mem_dropTrailEmptyLL h')

/-- Dropping the leading empty keeps the list pair-free. -/
theorem pairFree_dropLeadEmptyLL {L : List (List Char)}
    (h : hasPairEmpty L = false) : hasPairEmpty (dropLeadEmptyLL L) = false := by
  match L with
  | [] => exact h
  | [] :: rest => exact hasPairEmpty_cons h
  | (c :: m') :: rest => exact h

/-- The head after dropping the trailing empty is the original head, when any. -/
theorem head?_dropTrailEmptyLL (m : List Char) (rest : List (List Char)) :
    (dropTrailEmptyLL (m :: rest)).head? = none ∨
      (dropTrailEmptyLL (m :: rest)).head? = some m := by
  match rest with
  | [] =>
    unfold dropTrailEmptyLL
    by_cases hm : m.isEmpty
    · rw [if_pos hm]; exact Or.inl rfl
    · rw [if_neg hm]; exact Or.inr rfl
  | r :: rest' => exact Or.inr rfl

/-- Inversion: dropping the trailing empty yields the empty list only from
`[]` or `[[]]`. -/
theorem dropTrailEmptyLL_eq_nil : ∀ {L : List (List Char)},
    dropTrailEmptyLL L = [] → L = [] ∨ L = [[]] := by
  intro L
  match L with
  | [] => exact fun _ => Or.inl rfl
  | [m] =>
    intro h
    unfold dropTrailEmptyLL at h
    by_cases hm : m.isEmpty
    · right
      have : m = [] := by simpa using hm
      rw [this]
    · rw [if_neg hm] at h
      exact absurd h (by simp)
  | m :: r :: rest => intro h; exact absurd h (by simp [dropTrailEmptyLL])

/-- Dropping the trailing empty keeps the list pair-free. -/
theorem pairFree_dropTrailEmptyLL : ∀ {L : List (List Char)},
    hasPairEmpty L = false → hasPairEmpty (dropTrailEmptyLL L) = false := by
  intro L
  match L with
  | [] => exact fun h => h
  | [m] =>
    intro h
    unfold dropTrailEmptyLL
    by_cases hm : m.isEmpty
    · rw [if_pos hm]; rfl
    · rw [if_neg hm]; rfl
  | m :: r :: rest =>
    intro h
    have hrec := pairFree_dropTrailEmptyLL (hasPairEmpty_cons h)
    have hstep : dropTrailEmptyLL (m :: r :: rest) = m :: dropTrailEmptyLL (r :: rest) :=
      rfl
    cases hD : dropTrailEmptyLL (r :: rest) with
    | nil => rw [hstep, hD]; rfl
    | cons d D' =>
      rcases head?_dropTrailEmptyLL r rest with hh | hh
      · rw [hD] at hh; simp at hh
      · rw [hD, List.head?_cons, Option.some.injEq] at hh
        rw [hstep, hD]
        show hasPairEmpty (m :: d :: D') = false
        unfold hasPairEmpty
        rw [Bool.or_eq_false_iff]
        rw [hD] at hrec
        refine ⟨?_, hrec⟩
        have h1 := h
        unfold hasPairEmpty at h1
        have := (Bool.or_eq_false_iff.mp h1).1
        rw [← hh] at this
        exact this

/-- After dropping the trailing empty, the last line is nonempty. -/
theorem getLast?_dropTrailEmptyLL : ∀ {L : List (List Char)},
    hasPairEmpty L = false → (dropTrailEmptyLL L).getLast? ≠ some [] := by
  intro L
  match L with
  | [] => intro _ h; simp [dropTrailEmptyLL] at h
  | [m] =>
    intro _ h
    unfold dropTrailEmptyLL at h
    by_cases hm : m.isEmpty
    · rw [if_pos hm] at h; simp at h
    · rw [if_neg hm] at h
      simp only [List.getLast?_singleton, Option.some.injEq] at h
      rw [h] at hm
      exact hm rfl
  | m :: r :: rest =>
    intro hp h
    have hrec := getLast?_dropTrailEmptyLL (hasPairEmpty_cons hp)
    cases hD : dropTrailEmptyLL (r :: rest) with
    | nil =>
      rcases dropTrailEmptyLL_eq_nil hD with h1 | h1
      · simp at h1
      · have hr : r = [] := by
          injection h1 with h2 h3
        have hm : m ≠ [] := by
          intro he
          unfold hasPairEmpty at hp
          rw [he, hr] at hp
          simp at hp
        rw [show dropTrailEmptyLL (m :: r :: rest) = m :: dropTrailEmptyLL (r :: rest)
          from rfl, hD] at h
        simp only [List.getLast?_singleton, Option.some.injEq] at h
        exact hm h
    | cons d D' =>
      rw [show dropTrailEmptyLL (m :: r :: rest) = m :: dropTrailEmptyLL (r :: rest)
        from rfl, hD] at h
      rw [List.getLast?_cons_cons] at h
      rw [hD] at hrec
      exact hrec h

/-- A joined nonempty-headed line list starts with its head line. -/
theorem joinNL_parts (m : List Char) (rest : List (List Char)) :
    ∃ w, joinNL (m :: rest) = m ++ w := by
  cases rest with
  | nil => exact ⟨[], by simp [joinNL]⟩
  | cons r rest' => exact ⟨'\n' :: joinNL (r :: rest'), rfl⟩

/-- The head of a strip-fixed line is not whitespace. -/
theorem stripFixed_head {m : List Char} (hs : pyStrip m = m) {c : Char}
    (hc : m.head? = some c) : pyIsSpace c = false :=
  pyStrip_head m (by rw [hs]; exact hc)

/-- The last character of a strip-fixed line is not whitespace. -/
theorem stripFixed_last {m : List Char} (hs : pyStrip m = m) {c : Char}
    (hc : m.reverse.head? = some c) : pyIsSpace c = false :=
  pyStrip_last m (by rw [hs]; exact hc)

/-- Front-stripping a joined line list with a nonempty strip-fixed head line
changes nothing. -/
theorem dropWhile_joinNL_self {m : List Char} (rest : List (List Char))
    (hne : m ≠ []) (hs : pyStrip m = m) :
    (joinNL (m :: rest)).dropWhile pyIsSpace = joinNL (m :: rest) := by
  apply dropWhile_eq_self
  intro c hc
  obtain ⟨w, hw⟩ := joinNL_parts m rest
  cases m with
  | nil => exact absurd rfl hne
  | cons a m' =>
    rw [hw] at hc
    simp only [List.cons_append, List.head?_cons, Option.some.injEq] at hc
    subst hc
    exact stripFixed_head hs rfl

/-- The front `strip` of the joined cleaned lines drops exactly a leading
empty line. -/
theorem dropWhile_joinNL : ∀ L : List (List Char),
    (∀ m ∈ L, pyStrip m = m) → hasPairEmpty L = false →
    (joinNL L).dropWhile pyIsSpace = joinNL (dropLeadEmptyLL L) := by
  intro L hs hp
  match L with
  | [] => rfl
  | m :: rest =>
    by_cases hne : m = []
    · subst hne
      match rest with
      | [] => rfl
      | r :: rest' =>
        have hr : r ≠ [] := hasPairEmpty_head hp r rfl
        have hj : joinNL ([] :: r :: rest') = '\n' :: joinNL (r :: rest') := rfl
        rw [hj]
        rw [List.dropWhile_cons, if_pos (by decide)]
        exact dropWhile_joinNL_self rest' hr (hs r (by simp))
    · have hL : dropLeadEmptyLL (m :: rest) = m :: rest := by
        cases m with
        | nil => exact absurd rfl hne
        | cons a m' => rfl
      rw [hL]
      exact dropWhile_joinNL_self rest hne (hs m (by simp))

/-- Back-stripping distributes over an append whose right part does not strip
to nothing. -/
theorem dropTrailWhile_append (p : Char → Bool) (a b : List Char)
    (hb : dropTrailWhile p b ≠ []) :
    dropTrailWhile p (a ++ b) = a ++ dropTrailWhile p b := by
  unfold dropTrailWhile at hb ⊢
  rw [List.reverse_append, List.dropWhile_append]
  rw [if_neg (by
    intro he
    rw [List.isEmpty_iff] at he
    rw [he] at hb
    simp at hb)]
  rw [List.reverse_append, List.reverse_reverse]

/-- A nonempty line list with nonempty last line joins to a nonempty text. -/
theorem joinNL_ne_nil : ∀ {D : List (List Char)}, D ≠ [] →
    D.getLast? ≠ some [] → joinNL D ≠ [] := by
  intro D
  match D with
  | [] => intro h _; exact absurd rfl h
  | [d] =>
    intro _ hlast
    have hd : d ≠ [] := by
      intro he
      exact hlast (by rw [he]; rfl)
    simpa [joinNL] using hd
  | d :: d' :: D' =>
    intro _ _
    rw [show joinNL (d :: d' :: D') = d ++ '\n' :: joinNL (d' :: D') from rfl]
    simp

/-- Back-stripping is the identity on strip-fixed lines. -/
theorem dropTrail_eq_self_of_fixed {m : List Char} (hs : pyStrip m = m) :
    dropTrailWhile pyIsSpace m = m :=
  dropTrail_eq_self pyIsSpace m (fun _ hc => stripFixed_last hs hc)

/-- The back `strip` of the joined cleaned lines drops exactly a trailing
empty line. -/
theorem dropTrailWhile_joinNL : ∀ L : List (List Char),
    (∀ m ∈ L, pyStrip m = m) → hasPairEmpty L = false →
    dropTrailWhile pyIsSpace (joinNL L) = joinNL (dropTrailEmptyLL L) := by
  intro L hs hp
  match L with
  | [] => rfl
  | [m] =>
    by_cases hm : m = []
    · subst hm
      rfl
    · rw [show joinNL [m] = m from rfl, dropTrail_eq_self_of_fixed (hs m (by simp))]
      rw [show dropTrailEmptyLL [m] = if m.isEmpty then [] else [m] from rfl,
        if_neg (by simpa using hm)]
      rfl
  | m :: r :: rest =>
    have hj : joinNL (m :: r :: rest) = m ++ '\n' :: joinNL (r :: rest) := rfl
    have hDstep : dropTrailEmptyLL (m :: r :: rest) = m :: dropTrailEmptyLL (r :: rest) :=
      rfl
    have IH := dropTrailWhile_joinNL (r :: rest) (fun n hn => hs n (by simp [hn]))
      (hasPairEmpty_cons hp)
    cases hD : dropTrailEmptyLL (r :: rest) with
    | nil =>
      rcases dropTrailEmptyLL_eq_nil hD with h1 | h1
      · simp at h1
      · have hr : r = [] := by injection h1 with h2 h3
        have hrest : rest = [] := by injection h1 with h2 h3
        subst hr
        subst hrest
        have hm : m ≠ [] := by
          intro he
          unfold hasPairEmpty at hp
          rw [he] at hp
          simp at hp
        rw [hj, hDstep, hD]
        rw [show joinNL ([] :: ([] : List (List Char))) = [] from rfl]
        rw [show joinNL [m] = m from rfl]
        unfold dropTrailWhile
        rw [List.reverse_append]
        rw [show (['\n'] : List Char).reverse ++ m.reverse = '\n' :: m.reverse from by simp]
        rw [List.dropWhile_cons, if_pos (by decide)]
        rw [dropWhile_eq_self pyIsSpace m.reverse
          (fun c hc => stripFixed_last (hs m (by simp)) hc)]
        exact List.reverse_reverse m
    | cons d D' =>
      have hne2 : dropTrailWhile pyIsSpace (joinNL (r :: rest)) ≠ [] := by
        rw [IH, hD]
        refine joinNL_ne_nil (by simp) ?_
        rw [← hD]
        exact getLast?_dropTrailEmptyLL (hasPairEmpty_cons hp)
      have h3 : dropTrailWhile pyIsSpace ('\n' :: joinNL (r :: rest))
          = '\n' :: dropTrailWhile pyIsSpace (joinNL (r :: rest)) := by
        have happ := dropTrailWhile_append pyIsSpace ['\n'] (joinNL (r :: rest)) hne2
        simpa using happ
      have h4 : dropTrailWhile pyIsSpace ('\n' :: joinNL (r :: rest)) ≠ [] := by
        rw [h3]
        simp
      rw [hj, dropTrailWhile_append pyIsSpace m ('\n' :: joinNL (r :: rest)) h4, h3, IH,
        hD, hDstep, hD]
      rfl

/-- Stripping the joined cleaned lines drops exactly the boundary empty
lines. -/
theorem pyStrip_joinNL (L : List (List Char))
    (hs : ∀ m ∈ L, pyStrip m = m) (hp : hasPairEmpty L = false) :
    pyStrip (joinNL L) = joinNL (trimEmpties L) := by
  unfold pyStrip trimEmpties
  rw [dropWhile_joinNL L hs hp]
  exact dropTrailWhile_joinNL (dropLeadEmptyLL L)
    (fun m hm => hs m (mem_dropLeadEmptyLL hm)) (pairFree_dropLeadEmptyLL hp)

/-- After dropping the leading empty, the head line of a pair-free list is
nonempty. -/
theorem head?_dropLeadEmptyLL {L : List (List Char)} (hp : hasPairEmpty L = false) :
    ∀ m, (dropLeadEmptyLL L).head? = some m → m ≠ [] := by
  match L with
  | [] => intro m hm; simp [dropLeadEmptyLL] at hm
  | [] :: rest => exact hasPairEmpty_head hp
  | (c :: m') :: rest =>
    intro m hm
    rw [show dropLeadEmptyLL ((c :: m') :: rest) = (c :: m') :: rest from rfl,
      List.head?_cons, Option.some.injEq] at hm
    subst hm
    simp

/-- The trim of a pair-free list has a nonempty head line. -/
theorem head?_trimEmpties {L : List (List Char)} (hp : hasPairEmpty L = false) :
    ∀ m, (trimEmpties L).head? = some m → m ≠ [] := by
  unfold trimEmpties
  intro m hm
  cases hL : dropLeadEmptyLL L with
  | nil => rw [hL] at hm; simp [dropTrailEmptyLL] at hm
  | cons a rest =>
    rw [hL] at hm
    rcases head?_dropTrailEmptyLL a rest with hh | hh
    · rw [hh] at hm; cases hm
    · rw [hh, Option.some.injEq] at hm
      subst hm
      exact head?_dropLeadEmptyLL hp a (by rw [hL]; rfl)

/-- Dropping the leading empty is the identity when the head is nonempty. -/
theorem dropLeadEmptyLL_eq_self {L : List (List Char)}
    (h : ∀ m, L.head? = some m → m ≠ []) : dropLeadEmptyLL L = L := by
  match L with
  | [] => rfl
  | [] :: rest => exact absurd rfl (h [] rfl)
  | (c :: m') :: rest => rfl

/-- Dropping the trailing empty is the identity when the last line is
nonempty. -/
theorem dropTrailEmptyLL_eq_self : ∀ {L : List (List Char)},
    L.getLast? ≠ some [] → dropTrailEmptyLL L = L := by
  intro L
  match L with
  | [] => exact fun _ => rfl
  | [m] =>
    intro h
    have hm : m ≠ [] := by
      intro he
      exact h (by rw [he]; rfl)
    unfold dropTrailEmptyLL
    rw [if_neg (by simpa using hm)]
  | m :: r :: rest =>
    intro h
    rw [show dropTrailEmptyLL (m :: r :: rest) = m :: dropTrailEmptyLL (r :: rest) from
      rfl]
    rw [dropTrailEmptyLL_eq_self (by simpa [List.getLast?_cons_cons] using h)]

/-- Every line emitted by the cleanup of a split text is strip-fixed, visible
when nonempty, terminator-free, and a contiguous part of the text. -/
theorem buildLines_split_facts (x : List Char) :
    ∀ m ∈ buildLines (pySplitlines x) false,
      pyStrip m = m ∧ (m ≠ [] → invisibleOnly m = false) ∧
        (∀ c ∈ m, isLineTerm c = false) ∧ (∃ u v, x = u ++ m ++ v) := by
  intro m hm
  rcases buildLines_mem _ _ m hm with rfl | ⟨l, hl, heq, hne, hinv⟩
  · exact ⟨rfl, fun h => absurd rfl h, by simp, ⟨[], x, by simp⟩⟩
  · obtain ⟨⟨u, v, hx⟩, hterm⟩ := pySplitlines_mem hl
    subst heq
    refine ⟨pyStrip_idem l, fun _ => hinv, ?_, ?_⟩
    · intro c hc
      obtain ⟨u', v', hl'⟩ := pyStrip_parts l
      exact hterm c (by rw [hl']; simp [hc])
    · obtain ⟨u', v', hl'⟩ := pyStrip_parts l
      refine ⟨u ++ u', v' ++ v, ?_⟩
      conv_lhs => rw [hx, hl']
      simp [List.append_assoc]

/-- First pass of `html_to_text` on wiki-markup-free plain text: the `\n{4,}`
normalization and both removals are no-ops, so the result is the cleaned line
list joined and trimmed of boundary empties. -/
theorem html_to_text_firstPass (x : List Char) (h1 : hasDouble '[' x = false)
    (h2 : hasDouble '{' x = false) :
    pyStrip (removePaired '{' '}' (removePaired '[' ']'
        (collapseNL (normalizeLines x))))
      = joinNL (trimEmpties (buildLines (pySplitlines x) false)) := by
  have facts := buildLines_split_facts x
  have hpair := (buildLines_pairFree (pySplitlines x) false).1
  have hnoNL : ∀ m ∈ buildLines (pySplitlines x) false, ∀ c ∈ m, c ≠ '\n' := by
    intro m hm c hc he
    subst he
    have h := (facts m hm).2.2.1 '\n' hc
    simp [isLineTerm] at h
  have hrun := (joinNL_runOk _ hnoNL hpair).1
  have hcol : collapseNL (normalizeLines x) = normalizeLines x := by
    unfold normalizeLines
    exact collapseNL_id _ (nlRunOk_mono _ 2 3 1 3 (by omega) (by omega) hrun)
  have hd1 : hasDouble '[' (normalizeLines x) = false := by
    unfold normalizeLines
    exact hasDouble_joinNL (by decide) _
      (fun m hm => hasDouble_infix (facts m hm).2.2.2 h1)
  have hd2 : hasDouble '{' (normalizeLines x) = false := by
    unfold normalizeLines
    exact hasDouble_joinNL (by decide) _
      (fun m hm => hasDouble_infix (facts m hm).2.2.2 h2)
  rw [hcol, removePaired_id ']' hd1, removePaired_id '}' hd2]
  unfold normalizeLines
  exact pyStrip_joinNL _ (fun m hm => (facts m hm).1) hpair

/-- The whole pipeline is the identity on a joined line list that is already
clean: strip-fixed visible lines, no adjacent empties, nonempty first and last
lines, no wiki markers. -/
theorem html_to_text_fixedPoint (L : List (List Char))
    (hfacts : ∀ m ∈ L, pyStrip m = m ∧ (m ≠ [] → invisibleOnly m = false) ∧
      ∀ c ∈ m, isLineTerm c = false)
    (hp : hasPairEmpty L = false)
    (hhead : ∀ m, L.head? = some m → m ≠ [])
    (hlast : L.getLast? ≠ some [])
    (hd1 : ∀ m ∈ L, hasDouble '[' m = false)
    (hd2 : ∀ m ∈ L, hasDouble '{' m = false) :
    pyStrip (removePaired '{' '}' (removePaired '[' ']'
        (collapseNL (normalizeLines (joinNL L))))) = joinNL L := by
  have hsplit : pySplitlines (joinNL L) = L :=
    pySplitlines_joinNL L (fun m hm => (hfacts m hm).2.2) hlast
  have hbuild : buildLines L false = L :=
    buildLines_fix L false (fun m hm => ⟨(hfacts m hm).1, (hfacts m hm).2.1⟩) hp
      (by simp)
  have hnorm : normalizeLines (joinNL L) = joinNL L := by
    unfold normalizeLines
    rw [hsplit, hbuild]
  have hnoNL : ∀ m ∈ L, ∀ c ∈ m, c ≠ '\n' := by
    intro m hm c hc he
    subst he
    have h := (hfacts m hm).2.2 '\n' hc
    simp [isLineTerm] at h
  have hrun := (joinNL_runOk L hnoNL hp).1
  have hcol : collapseNL (joinNL L) = joinNL L :=
    collapseNL_id _ (nlRunOk_mono _ 2 3 1 3 (by omega) (by omega) hrun)
  have hdj1 : hasDouble '[' (joinNL L) = false :=
    hasDouble_joinNL (by decide) L hd1
  have hdj2 : hasDouble '{' (joinNL L) = false :=
    hasDouble_joinNL (by decide) L hd2
  have hstripJ : pyStrip (joinNL L) = joinNL L := by
    rw [pyStrip_joinNL L (fun m hm => (hfacts m hm).1) hp]
    unfold trimEmpties
    rw [dropLeadEmptyLL_eq_self hhead, dropTrailEmptyLL_eq_self hlast]
  rw [hnorm, hcol, removePaired_id ']' hdj1, removePaired_id '}' hdj2, hstripJ]

/-- C8 amended: on plain-text input (no HTML markup, which the model's domain
reflects) containing no wiki-link opener `[[` and no template opener `{{`,
`html_to_text` is idempotent: the counterexample shows idempotence fails as
soon as removed wiki constructs leave adjacent blank lines behind.  (Claim as
amended: `toPlainText(toPlainText(x)) == toPlainText(x)` for plain-text `x`
without `[[` and `{{`.) -/
theorem html_to_text_idem (x : String) (h1 : hasDouble '[' x.data = false)
    (h2 : hasDouble '{' x.data = false) :
    html_to_text (html_to_text x) = html_to_text x := by
  have hfp := html_to_text_firstPass x.data h1 h2
  have hx : html_to_text x =
      ⟨joinNL (trimEmpties (buildLines (pySplitlines x.data) false))⟩ := by
    unfold html_to_text
    exact congrArg String.mk hfp
  rw [hx]
  have facts := buildLines_split_facts x.data
  have hpair := (buildLines_pairFree (pySplitlines x.data) false).1
  have hmemT : ∀ m ∈ trimEmpties (buildLines (pySplitlines x.data) false),
      m ∈ buildLines (pySplitlines x.data) false :=
    fun m hm => mem_dropLeadEmptyLL (mem_dropTrailEmptyLL hm)
  unfold html_to_text
  apply congrArg String.mk
  show pyStrip (removePaired '{' '}' (removePaired '[' ']' (collapseNL
    (normalizeLines (joinNL (trimEmpties (buildLines (pySplitlines x.data) false)))))))
    = joinNL (trimEmpties (buildLines (pySplitlines x.data) false))
  apply html_to_text_fixedPoint
  · intro m hm
    obtain ⟨hs, hi, ht, _⟩ := facts m (hmemT m hm)
    exact ⟨hs, hi, ht⟩
  · exact pairFree_dropTrailEmptyLL (pairFree_dropLeadEmptyLL hpair)
  · exact head?_trimEmpties hpair
  · exact getLast?_dropTrailEmptyLL (pairFree_dropLeadEmptyLL hpair)
  · exact fun m hm => hasDouble_infix (facts m (hmemT m hm)).2.2.2 h1
  · exact fun m hm => hasDouble_infix (facts m (hmemT m hm)).2.2.2 h2

/-- Witness for the amended C8 theorem at a concrete plain-text input. -/
theorem html_to_text_idem_witness :
    hasDouble '[' "hello [world]\n\npage".data = false ∧
    hasDouble '{' "hello [world]\n\npage".data = false ∧
    html_to_text (html_to_text "hello [world]\n\npage")
      = html_to_text "hello [world]\n\npage" :=
  ⟨by decide, by decide,
    html_to_text_idem "hello [world]\n\npage" (by decide) (by decide)⟩

/-- C9 amended: the line cleanup collapses every run of blank lines to exactly
one blank line, so up to the `\n{4,}` normalization (before wiki-link and
template removal) the text never contains a run of three newlines, that is,
never two consecutive blank lines; the removal steps may afterwards leave
longer blank runs, as the counterexample records. -/
theorem normalizeLines_blank_bound (x : String) :
    nlRunOk 2 2 (collapseNL (normalizeLines x.data)) = true := by
  have facts := buildLines_split_facts x.data
  have hpair := (buildLines_pairFree (pySplitlines x.data) false).1
  have hnoNL : ∀ m ∈ buildLines (pySplitlines x.data) false, ∀ c ∈ m, c ≠ '\n' := by
    intro m hm c hc he
    subst he
    have h := (facts m hm).2.2.1 '\n' hc
    simp [isLineTerm] at h
  have hrun := (joinNL_runOk _ hnoNL hpair).1
  have hcol : collapseNL (normalizeLines x.data) = normalizeLines x.data := by
    unfold normalizeLines
    exact collapseNL_id _ (nlRunOk_mono _ 2 3 1 3 (by omega) (by omega) hrun)
  rw [hcol]
  unfold normalizeLines
  exact nlRunOk_mono _ 2 2 1 2 (by omega) (by omega) hrun

/-! ### Portal resolution (`extract_portal`, extract_wikisource.py lines
526-741, with `extract_key_terms` lines 444-488)

The network is an explicit environment: `getPage` returns the anchors of a
page (`none` models a failed fetch, as `get_page_content` returning `None`),
and `extract_chapter_with_subpages` (lines 491-523), which never calls back
into the resolver, is an oracle returning the extracted text of a chapter.
Percent-decoding of hrefs (`unquote`) is modelled as the identity: titles in
the environment are taken verbatim. -/

/-- A raw anchor of the fetched page: `href` attribute and stripped visible
text. -/
structure RawLink where
  href : String
  anchor : String
deriving DecidableEq, Repr

/-- A collected internal link (lines 570-576). -/
structure PLink where
  title : String
  text : String
  containsBase : Bool
deriving DecidableEq, Repr

/-- The environment of the portal resolver. -/
structure PortalEnv where
  getPage : String → Option (List RawLink)
  extractChapter : String → Option String

/-- Link collection and filtering (lines 552-576): only internal `/wiki/`
hrefs, no namespaced targets (a `:` in the first path segment), no self
links; `contains_base` is the substring test `base_name in link_title`. -/
def filterLinks (title base_name : String) (raws : List RawLink) : List PLink :=
  raws.filterMap (fun r =>
    if !pyStartsWith "/wiki/" r.href then none
    else
      let link_title : String := ⟨r.href.data.drop 6⟩
      if containsSub ":" (splitHead '/' link_title) then none
      else if link_title = title then none
      else some ⟨link_title, r.anchor, containsSub base_name link_title⟩)

/-- The `STOP_WORDS` set of `extract_key_terms` (lines 451-459). -/
def STOP_WORDS : List String :=
  ["the", "a", "an", "and", "or", "of", "in", "on", "at", "to", "for",
   "with", "by", "from", "as", "into", "through", "during", "before",
   "after", "above", "below", "between", "under", "again", "further",
   "then", "once", "here", "there", "when", "where", "why", "how",
   "all", "each", "few", "more", "most", "other", "some", "such",
   "no", "nor", "not", "only", "own", "same", "so", "than", "too",
   "very", "just", "can", "will", "should", "now"]

/-- Does the regex `\([^)]+\)$` match at this position (a `(`, one or more
non-`)` characters, a `)`, end of string)? -/
def parenAtEnd : List Char → Bool
  | '(' :: rest =>
    let mid := rest.takeWhile (fun c => c ≠ ')')
    let rest' := rest.dropWhile (fun c => c ≠ ')')
    !mid.isEmpty && decide (rest' = [')'])
  | _ => false

/-- Models `re.sub(r'\([^)]+\)$', '', title)`: removes from the leftmost
position where the pattern matches through the end. -/
def stripParenSub : List Char → List Char
  | [] => []
  | c :: t => if parenAtEnd (c :: t) then [] else c :: stripParenSub t

/-- Models Python's `str.strip('_')`. -/
def stripUnderscore (l : List Char) : List Char :=
  dropTrailWhile (fun c => c = '_') (l.dropWhile (fun c => c = '_'))

/-- Models Python's `str.isdigit()` (ASCII digits). -/
def pyIsDigit (l : List Char) : Bool :=
  !l.isEmpty && l.all Char.isDigit

/-- Embeds `extract_key_terms` (lines 444-488): strip a namespace prefix up
to the first `:`, strip one trailing parenthetical qualifier, strip
underscores and whitespace, split on `_`; the full base goes first when it
has a meaningful word, then the non-stop-word non-numeric parts longer than
two characters, then the numeric parts. -/
def extract_key_terms (title : String) : List String :=
  let t1 : List Char :=
    if title.data.contains ':' then (title.data.dropWhile (fun c => c ≠ ':')).drop 1
    else title.data
  let base : List Char := pyStrip (stripUnderscore (stripParenSub t1))
  let parts : List (List Char) := (splitChar '_' base).filter (fun p => !p.isEmpty)
  let meaningful := parts.filter
    (fun p => !STOP_WORDS.contains (pyLower ⟨p⟩) && decide (p.length > 2))
  let terms1 : List String := if !meaningful.isEmpty then [⟨base⟩] else []
  let terms2 : List String := parts.filterMap (fun p =>
    if !STOP_WORDS.contains (pyLower ⟨p⟩) && !pyIsDigit p && decide (p.length > 2)
    then some ⟨p⟩ else none)
  let terms3 : List String := parts.filterMap (fun p =>
    if pyIsDigit p then some ⟨p⟩ else none)
  terms1 ++ terms2 ++ terms3

/-- The audit record of a resolution decision (the `portal_choice` dicts of
lines 540, 608-615, 696-703, 727-734, including the nesting fields of lines
711-713). -/
inductive PChoice where
  | depthErr (msg : String)
  | choice (chosenTitle chosenUrl linkText reason : String)
      (alternativesCount : Nat) (ctype : String)
      (nestedFrom : Option String) (nestedChoice : Option PChoice)

/-- The `nested_from` field, when the record has one. -/
def PChoice.nestedFromField : PChoice → Option String
  | .depthErr _ => none
  | .choice _ _ _ _ _ _ nf _ => nf

/-- The `nested_choice` field, when the record has one. -/
def PChoice.nestedChoiceField : PChoice → Option PChoice
  | .depthErr _ => none
  | .choice _ _ _ _ _ _ _ nc => nc

/-- Result of one resolver call, instrumented with the number of network
operations (`fetches`: page fetches plus chapter extractions) and the number
of nested recursive resolver calls performed (`recCalls`). -/
structure PortalOut where
  text : Option String
  choice : Option PChoice
  fetches : Nat
  recCalls : Nat

/-- Page url of a title (the f-strings of lines 574 and 610; in the model
hrefs are `/wiki/` plus the verbatim title). -/
def wikiUrl (lang t : String) : String :=
  "https://" ++ lang ++ ".wikisource.org/wiki/" ++ t

/-- Models Python's `'\n'.join`. -/
def joinStr : List String → String
  | [] => ""
  | [s] => s
  | s :: rest => s ++ "\n" ++ joinStr rest

/-- The trailing path segment of a title (`title.split('/')[-1] if '/' in
title else title`, lines 602, 515). -/
def sectionName (t : String) : String :=
  if t.data.contains '/' then ⟨(splitChar '/' t.data).getLastD []⟩ else t

/-- The chapter loop (lines 597-604): extract each chapter link, keep texts
longer than 50 characters as `=== name ===` blocks, and count them. -/
def chapterBlocks (env : PortalEnv) : List PLink → List String × Nat
  | [] => ([], 0)
  | link :: rest =>
    let acc := chapterBlocks env rest
    match env.extractChapter link.title with
    | some sub_text =>
      if sub_text.length > 50 then
        (("\n\n=== " ++ sectionName link.title ++ " ===\n\n" ++ sub_text) :: acc.1,
          acc.2 + 1)
      else acc
    | none => acc

/-- Models `', '.join`. -/
def joinComma : List String → String
  | [] => ""
  | [s] => s
  | s :: rest => s ++ ", " ++ joinComma rest

/-- The version-link choice (lines 666-688): score, sort descending (stable),
keep positive scores and pick the first; otherwise the first link with a
title longer than 10 characters; otherwise the first link. -/
def chooseVersion (key_terms : List String) (version_links : List PLink) :
    Option (PLink × String) × List (Int × PLink) :=
  let scored := version_links.map (fun l => (score_link key_terms l.title l.text, l))
  let sorted := List.insertionSort (fun a b : Int × PLink => b.1 ≤ a.1) scored
  let good := sorted.filter (fun p => p.1 > 0)
  match good with
  | (best_score, chosen) :: _ =>
    let matched := key_terms.filter
      (fun t => containsSub (pyLower t) (pyLower chosen.title))
    (some (chosen, "Best match for '" ++ joinComma (matched.take 2) ++ "' (score: "
      ++ toString best_score ++ ")"), good)
  | [] =>
    match version_links.filter (fun l => decide (l.title.length > 10)) with
    | s :: _ => (some (s, "First available translation (no key term matches)"), good)
    | [] =>
      match version_links with
      | v :: _ => (some (v, "First link (fallback)"), good)
      | [] => (none, good)

/-- The retry loop over further well-scored links (lines 721-735): the links
`good[1:5]` other than the chosen one, each extracted until one yields more
than `MIN_TEXT_LENGTH` characters; also counts the extractions performed. -/
def tryLinks (env : PortalEnv) (lang : String) (nVer : Nat) (chosenTitle : String) :
    List (Int × PLink) → Option (String × PChoice) × Nat
  | [] => (none, 0)
  | (_, link) :: rest =>
    match env.extractChapter link.title with
    | some t =>
      if t.length > 100 then
        (some (t, .choice link.title (wikiUrl lang link.title) link.text
          ("Fallback (primary choice '" ++ chosenTitle ++ "' had no content)")
          nVer "version" none none), 1)
      else
        let r := tryLinks env lang nVer chosenTitle rest
        (r.1, r.2 + 1)
    | none =>
      let r := tryLinks env lang nVer chosenTitle rest
      (r.1, r.2 + 1)

/-- Is the optional text at least `n` characters long? -/
def optLenGe (o : Option String) (n : Nat) : Bool :=
  match o with
  | some s => decide (n ≤ s.length)
  | none => false

/-- The decision core of `extract_portal` after link collection (lines
578-741): the substantial-chapter return, the version-link choice, the nested
recursion hook, the retry loop and the final fallbacks.  `baseFetches` counts
the page fetch and the chapter extractions already performed; `recurse` is
the nested resolver call of line 708. -/
def portalCore (env : PortalEnv) (lang : String)
    (version_links : List PLink) (key_terms : List String)
    (chapter_text : Option String) (chapter_choice : Option PChoice)
    (baseFetches : Nat) (recurse : String → PortalOut) : PortalOut :=
  let endgame : Option PChoice → Nat → Nat → PortalOut := fun pc f rc =>
    match chapter_text with
    | some ct =>
      if ct.length > 100 then
        { text := some ct, choice := chapter_choice, fetches := f, recCalls := rc }
      else { text := none, choice := pc, fetches := f, recCalls := rc }
    | none => { text := none, choice := pc, fetches := f, recCalls := rc }
  if optLenGe chapter_text 3000 then
    { text := chapter_text, choice := chapter_choice,
      fetches := baseFetches, recCalls := 0 }
  else
    if version_links.isEmpty then endgame none baseFetches 0
    else
      match chooseVersion key_terms version_links with
      | (none, _) => endgame none baseFetches 0
      | (some (chosen, reason), good) =>
        let portal_choice : PChoice := .choice chosen.title
          (wikiUrl lang chosen.title) chosen.text reason
          version_links.length "version" none none
        let afterT : String → Nat → Nat → PortalOut := fun t f rc =>
          if t.length > 100 then
            { text := some t, choice := some portal_choice,
              fetches := f, recCalls := rc }
          else
            let fb := tryLinks env lang version_links.length chosen.title
              (((good.drop 1).take 4).filter (fun p => p.2 ≠ chosen))
            match fb.1 with
            | some (ft, fc) =>
              { text := some ft, choice := some fc,
                fetches := f + fb.2, recCalls := rc }
            | none => endgame (some portal_choice) (f + fb.2) rc
        match env.extractChapter chosen.title with
        | some t =>
          if 100 < t.length ∧ t.length < 3000 then
            let nested := recurse chosen.title
            match nested.text with
            | some nt =>
              if nt.length > t.length then
                { text := some nt
                  choice := some (.choice chosen.title (wikiUrl lang chosen.title)
                    chosen.text ("Followed nested portal: " ++ reason)
                    version_links.length "version" (some chosen.title)
                    nested.choice)
                  fetches := baseFetches + 1 + nested.fetches
                  recCalls := 1 + nested.recCalls }
              else afterT t (baseFetches + 1 + nested.fetches) (1 + nested.recCalls)
            | none => afterT t (baseFetches + 1 + nested.fetches) (1 + nested.recCalls)
          else afterT t (baseFetches + 1) 0
        | none =>
          let fb := tryLinks env lang version_links.length chosen.title
            (((good.drop 1).take 4).filter (fun p => p.2 ≠ chosen))
          match fb.1 with
          | some (ft, fc) =>
            { text := some ft, choice := some fc,
              fetches := baseFetches + 1 + fb.2, recCalls := 0 }
          | none => endgame (some portal_choice) (baseFetches + 1 + fb.2) 0

/-- Embeds `extract_portal` (lines 526-741).  The recursive call of line 708
passes `depth + 1` with the same `max_depth`, so `max_depth - depth` strictly
decreases; the structural `fuel` argument tracks it: the wrapper
`extract_portal` instantiates `fuel := max_depth - depth`, making `fuel = 0`
exactly the guard `depth >= max_depth` of line 539, and the invariant is
maintained at the recursive call.  `fetches` counts page fetches and chapter
extractions of the call tree; `recCalls` counts nested resolver calls. -/
def extract_portal_go (env : PortalEnv) (lang : String) :
    Nat → String → Nat → Nat → PortalOut
  | 0, _, _, maxDepth =>
    { text := none
      choice := some (.depthErr ("Max portal depth (" ++ toString maxDepth ++ ") reached"))
      fetches := 0
      recCalls := 0 }
  | fuel + 1, title, depth, maxDepth =>
    match env.getPage title with
    | none => { text := none, choice := none, fetches := 1, recCalls := 0 }
    | some raws =>
      let base_name := splitHead '/' title
      let key_terms := extract_key_terms base_name
      let all_links := filterLinks title base_name raws
      if all_links.isEmpty then
        { text := none, choice := none, fetches := 1, recCalls := 0 }
      else
        let chapter_links := all_links.filter (fun l => l.containsBase)
        let version_links := all_links.filter (fun l => !l.containsBase)
        let blocks := chapterBlocks env (chapter_links.take 100)
        let chapter_text : Option String :=
          if blocks.1.isEmpty then none else some (joinStr blocks.1)
        let chapter_choice : Option PChoice :=
          match chapter_text with
          | some _ => some (.choice (base_name ++ " (chapters)") (wikiUrl lang title)
              "Multiple chapters"
              ("Extracted " ++ toString blocks.2 ++
                " chapters with subpages (links contained base name)")
              chapter_links.length "chapters" none none)
          | none => none
        portalCore env lang version_links key_terms chapter_text chapter_choice
          (1 + (chapter_links.take 100).length)
          (fun t => extract_portal_go env lang fuel t (depth + 1) maxDepth)

/-- Embeds `extract_portal(lang, title, depth, max_depth)`; the source
defaults are `depth = 0`, `max_depth = 2`. -/
def extract_portal (env : PortalEnv) (lang title : String)
    (depth max_depth : Nat) : PortalOut :=
  extract_portal_go env lang (max_depth - depth) title depth max_depth

/-- The decision core performs at most one nested call on top of what the
recursion hook performs. -/
theorem portalCore_recCalls (env : PortalEnv) (lang : String)
    (vl : List PLink) (kt : List String) (ct : Option String)
    (cc : Option PChoice) (bf : Nat) (recurse : String → PortalOut) (n : Nat)
    (h : ∀ t, (recurse t).recCalls ≤ n) :
    (portalCore env lang vl kt ct cc bf recurse).recCalls ≤ n + 1 := by
  have step : ∀ a : Nat, a ≤ n → 1 + a ≤ n + 1 := by omega
  simp only [portalCore]
  repeat' split
  all_goals
    first
      | exact Nat.zero_le _
      | exact step _ (h _)

/-- The resolver performs at most `fuel` nested recursive calls. -/
theorem extract_portal_go_recCalls (env : PortalEnv) (lang : String) :
    ∀ (fuel : Nat) (title : String) (depth maxDepth : Nat),
      (extract_portal_go env lang fuel title depth maxDepth).recCalls ≤ fuel
  | 0, _, _, _ => by simp [extract_portal_go]
  | fuel + 1, title, depth, maxDepth => by
    have ih := fun t d m => extract_portal_go_recCalls env lang fuel t d m
    simp only [extract_portal_go]
    split
    · exact Nat.zero_le _
    · split
      · exact Nat.zero_le _
      · exact portalCore_recCalls env lang _ _ _ _ _ _ fuel (fun t => ih t _ _)

/-- C2: the portal resolver is depth-bounded and terminating: a call with
`depth ≥ maxDepth` returns the depth-limit failure immediately, performing no
fetch, and any call performs at most `maxDepth - depth` (hence at most
`maxDepth`) nested recursive calls, since each recursion passes `depth + 1`
with the same `maxDepth`. -/
theorem extract_portal_depth_bounded :
    (∀ (env : PortalEnv) (lang title : String) (depth maxDepth : Nat),
      maxDepth ≤ depth →
        extract_portal env lang title depth maxDepth =
          { text := none
            choice := some (.depthErr
              ("Max portal depth (" ++ toString maxDepth ++ ") reached"))
            fetches := 0
            recCalls := 0 }) ∧
    (∀ (env : PortalEnv) (lang title : String) (depth maxDepth : Nat),
      (extract_portal env lang title depth maxDepth).recCalls ≤ maxDepth - depth ∧
      (extract_portal env lang title depth maxDepth).recCalls ≤ maxDepth) := by
  constructor
  · intro env lang title depth maxDepth h
    have hz : maxDepth - depth = 0 := by omega
    rw [extract_portal, hz, extract_portal_go]
  · intro env lang title depth maxDepth
    refine ⟨extract_portal_go_recCalls env lang _ title depth maxDepth, ?_⟩
    exact le_trans (extract_portal_go_recCalls env lang _ title depth maxDepth)
      (Nat.sub_le _ _)

/-- Witness for C2 at concrete inputs: a resolver called at the depth limit
returns the failure record with zero fetches, and a top-level call with the
default `max_depth = 2` performs at most 2 nested calls. -/
theorem extract_portal_depth_bounded_witness :
    extract_portal ⟨fun _ => none, fun _ => none⟩ "en" "Title" 2 2 =
      { text := none
        choice := some (.depthErr "Max portal depth (2) reached")
        fetches := 0
        recCalls := 0 } ∧
    (extract_portal ⟨fun _ => none, fun _ => none⟩ "en" "Title" 0 2).recCalls ≤ 2 :=
  ⟨extract_portal_depth_bounded.1 ⟨fun _ => none, fun _ => none⟩ "en" "Title" 2 2
      (by decide),
   (extract_portal_depth_bounded.2 ⟨fun _ => none, fun _ => none⟩ "en" "Title" 0 2).2⟩

/-- Nested-recursion behaviour of the decision core: with no substantial
chapter text, a chosen version link and an extracted text `t`, the core
invokes the recursion hook exactly when `100 < len t < 3000`; the nested
result replaces `t` exactly when its text is strictly longer, recording the
nesting; otherwise the un-recursed text is returned with a nesting-free
choice record. -/
theorem portalCore_nested (env : PortalEnv) (lang : String)
    (version_links : List PLink) (key_terms : List String)
    (chapter_choice : Option PChoice) (bf : Nat) (recurse : String → PortalOut)
    (chosen : PLink) (reason : String) (good : List (Int × PLink)) (t : String)
    (hvl : version_links.isEmpty = false)
    (hcv : chooseVersion key_terms version_links = (some (chosen, reason), good))
    (hec : env.extractChapter chosen.title = some t) :
    (100 < t.length ∧ t.length < 3000 →
      (portalCore env lang version_links key_terms none chapter_choice bf
        recurse).recCalls = 1 + (recurse chosen.title).recCalls ∧
      (∀ nt, (recurse chosen.title).text = some nt → t.length < nt.length →
        (portalCore env lang version_links key_terms none chapter_choice bf
          recurse).text = some nt ∧
        (portalCore env lang version_links key_terms none chapter_choice bf
          recurse).choice = some (.choice chosen.title (wikiUrl lang chosen.title)
            chosen.text ("Followed nested portal: " ++ reason)
            version_links.length "version" (some chosen.title)
            (recurse chosen.title).choice)) ∧
      (∀ nt, (recurse chosen.title).text = some nt → nt.length ≤ t.length →
        (portalCore env lang version_links key_terms none chapter_choice bf
          recurse).text = some t ∧
        (portalCore env lang version_links key_terms none chapter_choice bf
          recurse).choice = some (.choice chosen.title (wikiUrl lang chosen.title)
            chosen.text reason version_links.length "version" none none))) ∧
    (¬(100 < t.length ∧ t.length < 3000) →
      (portalCore env lang version_links key_terms none chapter_choice bf
        recurse).recCalls = 0) := by
  simp only [portalCore, hcv, hec, optLenGe]
  rw [if_neg (by simp), if_neg (by simp [hvl])]
  refine ⟨fun hin => ?_, fun hout => ?_⟩
  · rw [if_pos hin]
    refine ⟨?_, fun nt hnt hlen => ?_, fun nt hnt hle => ?_⟩
    · rcases hx : (recurse chosen.title).text with _ | nt <;> simp only [hx]
      · rw [if_pos hin.1]
      · by_cases hc : nt.length > t.length
        · rw [if_pos hc]
        · rw [if_neg hc, if_pos hin.1]
    · simp only [hnt]
      rw [if_pos hlen]
      exact ⟨rfl, rfl⟩
    · simp only [hnt]
      rw [if_neg (by omega), if_pos hin.1]
      exact ⟨rfl, rfl⟩
  · rw [if_neg hout]
    by_cases hc : t.length > 100
    · rw [if_pos hc]
    · rw [if_neg hc]
      rcases (tryLinks env lang version_links.length chosen.title
          (((good.drop 1).take 4).filter (fun p => p.2 ≠ chosen))).1 with
        _ | p <;> rfl

/-- C4: in portal resolution, after extracting the chosen version link's
text `t` (and no chapter text was assembled), the resolver recurses into the
chosen target at `depth + 1` if and only if `100 < len t < 3000` (performing
exactly one nested call there, and none otherwise); the nested result
replaces `t` exactly when the nested text is strictly longer, in which case
the choice record carries `nested_from = chosen` and the nested choice
chain; otherwise the un-recursed text `t` is returned with a nesting-free
choice record. -/
theorem extract_portal_nested_recursion
    (env : PortalEnv) (lang title : String) (fuel depth maxDepth : Nat)
    (raws : List RawLink) (chosen : PLink) (reason : String)
    (good : List (Int × PLink)) (t : String)
    (hgp : env.getPage title = some raws)
    (hne : (filterLinks title (splitHead '/' title) raws).isEmpty = false)
    (hcb : (chapterBlocks env
      (((filterLinks title (splitHead '/' title) raws).filter
        (fun l => l.containsBase)).take 100)).1 = [])
    (hvl : ((filterLinks title (splitHead '/' title) raws).filter
      (fun l => !l.containsBase)).isEmpty = false)
    (hcv : chooseVersion (extract_key_terms (splitHead '/' title))
      ((filterLinks title (splitHead '/' title) raws).filter
        (fun l => !l.containsBase)) = (some (chosen, reason), good))
    (hec : env.extractChapter chosen.title = some t) :
    (100 < t.length ∧ t.length < 3000 →
      (extract_portal_go env lang (fuel + 1) title depth maxDepth).recCalls =
        1 + (extract_portal_go env lang fuel chosen.title (depth + 1)
          maxDepth).recCalls ∧
      (∀ nt, (extract_portal_go env lang fuel chosen.title (depth + 1)
            maxDepth).text = some nt → t.length < nt.length →
        (extract_portal_go env lang (fuel + 1) title depth maxDepth).text
          = some nt ∧
        (extract_portal_go env lang (fuel + 1) title depth maxDepth).choice
          = some (.choice chosen.title (wikiUrl lang chosen.title) chosen.text
            ("Followed nested portal: " ++ reason)
            ((filterLinks title (splitHead '/' title) raws).filter
              (fun l => !l.containsBase)).length
            "version" (some chosen.title)
            (extract_portal_go env lang fuel chosen.title (depth + 1)
              maxDepth).choice)) ∧
      (∀ nt, (extract_portal_go env lang fuel chosen.title (depth + 1)
            maxDepth).text = some nt → nt.length ≤ t.length →
        (extract_portal_go env lang (fuel + 1) title depth maxDepth).text
          = some t ∧
        (extract_portal_go env lang (fuel + 1) title depth maxDepth).choice
          = some (.choice chosen.title (wikiUrl lang chosen.title) chosen.text
            reason
            ((filterLinks title (splitHead '/' title) raws).filter
              (fun l => !l.containsBase)).length
            "version" none none))) ∧
    (¬(100 < t.length ∧ t.length < 3000) →
      (extract_portal_go env lang (fuel + 1) title depth maxDepth).recCalls
        = 0) := by
  have hcore := portalCore_nested env lang
    ((filterLinks title (splitHead '/' title) raws).filter
      (fun l => !l.containsBase))
    (extract_key_terms (splitHead '/' title)) none
    (1 + (((filterLinks title (splitHead '/' title) raws).filter
      (fun l => l.containsBase)).take 100).length)
    (fun s => extract_portal_go env lang fuel s (depth + 1) maxDepth)
    chosen reason good t hvl hcv hec
  have hgo : extract_portal_go env lang (fuel + 1) title depth maxDepth =
      portalCore env lang
        ((filterLinks title (splitHead '/' title) raws).filter
          (fun l => !l.containsBase))
        (extract_key_terms (splitHead '/' title)) none none
        (1 + (((filterLinks title (splitHead '/' title) raws).filter
          (fun l => l.containsBase)).take 100).length)
        (fun s => extract_portal_go env lang fuel s (depth + 1) maxDepth) := by
    simp only [extract_portal_go, hgp, hcb]
    rw [if_neg (by simp [hne])]
    simp [hcb]
  rw [hgo]
  exact hcore

/-- A concrete portal page for exercising the resolver: one version link. -/
def portalWitRaws : List RawLink :=
  [⟨"/wiki/Homer_Translation", "translated edition of homer"⟩]

/-- A concrete resolver environment over that page. -/
def portalWitEnv : PortalEnv :=
  { getPage := fun s => if s = "Works_of_Homer" then some portalWitRaws else none
    extractChapter := fun s =>
      if s = "Homer_Translation" then some ⟨List.replicate 150 'x'⟩ else none }

/-- The version link as collected by the filter. -/
def portalWitLink : PLink :=
  ⟨"Homer_Translation", "translated edition of homer", false⟩

set_option maxRecDepth 10000 in
/-- Witness for C4 at a concrete input: the chosen link's text has length
150 (strictly between 100 and 3000), so the resolver performs exactly one
nested call. -/
theorem extract_portal_nested_recursion_witness :
    (extract_portal_go portalWitEnv "en" 1 "Works_of_Homer" 0 2).recCalls = 1 := by
  have h := extract_portal_nested_recursion portalWitEnv "en" "Works_of_Homer"
    0 0 2 portalWitRaws portalWitLink "Best match for 'Homer' (score: 21)"
    [((21 : Int), portalWitLink)] ⟨List.replicate 150 'x'⟩
    (by decide) (by decide) (by decide) (by decide) (by decide) (by decide)
  have hin : 100 < (String.mk (List.replicate 150 'x')).length ∧
      (String.mk (List.replicate 150 'x')).length < 3000 := by decide
  exact ((h.1 hin).1).trans (by decide)

/-- The retry loop of `make_request` (base.py lines 42-53 and
extract_wikisource.py lines 130-145): attempts are numbered from 0; the
outcome of attempt `i` is `responses i` (`none` models a
`requests.RequestException`); the first successful attempt's parsed JSON is
returned, and exhausting the `remaining` retries yields `none`. -/
def make_request_go {α : Type} (responses : Nat → Option α) :
    Nat → Nat → Option α
  | _, 0 => none
  | attempt, remaining + 1 =>
    match responses attempt with
    | some v => some v
    | none => make_request_go responses (attempt + 1) remaining

/-- `make_request(url, params, retries)`: run the retry loop from attempt 0. -/
def make_request {α : Type} (retries : Nat) (responses : Nat → Option α) :
    Option α :=
  make_request_go responses 0 retries

/-- A parsed reply to the `allpages` query of `has_subpages` (wikisource.py
lines 26-35): `isTruthy` is Python's `if data:` test on the returned dict,
and `allpages` is `data.get('query', \x7b\x7d).get('allpages', [])`. -/
structure SubpagesReply where
  isTruthy : Bool
  allpages : List String
deriving DecidableEq, Repr

/-- Embeds `WikisourceExtractor.has_subpages` (wikisource.py lines 24-38):
the API call goes through `make_request` with the default `retries = 3`; on
a truthy reply the answer is whether the `allpages` list is non-empty, and
on a falsy reply or exhausted retries the answer is `True` (the code's
`return True  # Assume has subpages on error`). -/
def has_subpages (responses : Nat → Option SubpagesReply) : Bool :=
  match make_request 3 responses with
  | some data =>
    if data.isTruthy then decide (data.allpages.length > 0) else true
  | none => true

/-- The retry loop returns `none` when every attempted index fails. -/
theorem make_request_go_none {α : Type} (responses : Nat → Option α) :
    ∀ (remaining attempt : Nat),
      (∀ i, attempt ≤ i → i < attempt + remaining → responses i = none) →
      make_request_go responses attempt remaining = none
  | 0, _, _ => rfl
  | remaining + 1, attempt, h => by
    rw [make_request_go, h attempt (le_refl _) (by omega)]
    exact make_request_go_none responses remaining (attempt + 1)
      (fun i h1 h2 => h i (by omega) (by omega))

/-- Counterexample to C10: with every attempt failing, `make_request` does
return the typed failure `none`, but the subpage check built on it answers
`true` — exhausted retries are taken as evidence that subpages exist, not as
"page unavailable" (wikisource.py line 38: `return True  # Assume has
subpages on error`). -/
theorem has_subpages_fetch_failure_ne_claim :
    make_request 3 (fun _ => (none : Option SubpagesReply)) = none ∧
    has_subpages (fun _ => none) = true := by
  exact ⟨rfl, rfl⟩

/-- C10 (amended): a fetch whose retries are exhausted returns the typed
failure value `none` and never raises; the page classifier treats that
failure as an `error` outcome for the current page (not as "page is empty");
but the subpage check `has_subpages` deliberately treats the failure as
evidence that subpages exist, answering `true` on exhausted retries. -/
theorem fetch_failure_handling :
    (∀ (retries : Nat) (responses : Nat → Option SubpagesReply),
      (∀ i, i < retries → responses i = none) →
        make_request retries responses = none) ∧
    (∀ title : String, analyze_page title none = .error) ∧
    (∀ responses : Nat → Option SubpagesReply,
      (∀ i, i < 3 → responses i = none) →
        has_subpages responses = true) := by
  refine ⟨?_, fun _ => rfl, ?_⟩
  · intro retries responses h
    exact make_request_go_none responses retries 0 (fun i h1 h2 => h i (by omega))
  · intro responses h
    have hm : make_request 3 responses = none :=
      make_request_go_none responses 3 0 (fun i h1 h2 => h i (by omega))
    rw [has_subpages, hm]

/-- Witness for C10 at concrete inputs: three failing attempts give
`make_request = none`, classification `error`, and `has_subpages = true`. -/
theorem fetch_failure_handling_witness :
    make_request 3 (fun _ => (none : Option SubpagesReply)) = none ∧
    analyze_page "Title" none = .error ∧
    has_subpages (fun _ => none) = true :=
  ⟨fetch_failure_handling.1 3 (fun _ => none) (fun _ _ => rfl),
   fetch_failure_handling.2.1 "Title",
   fetch_failure_handling.2.2 (fun _ => none) (fun _ _ => rfl)⟩

/-- Status values taken by `ExtractionResult.status` in `extract_full_text`
(lines 752-815): initialized `failed`, set to `success` on validated text
and to `skipped` on disambiguation pages. -/
inductive EStatus where
  | failed
  | success
  | skipped
deriving DecidableEq, Repr

/-- The fields of the `ExtractionResult` dataclass that `extract_full_text`
writes (lines 751-815): `pageType = none` models the initial `'unknown'`,
`text` models the private `_text` payload. -/
structure ExtractionResult where
  pageType : Option PageType
  status : EStatus
  textLength : Nat
  subpagesFetched : Nat
  portalChoice : Option PChoice
  errorMessage : Option String
  text : Option String

/-- The environment of `extract_full_text`: the subpage listing, the
multipage extractor, the page fetch feeding `analyze_page`, the portal
resolver's network environment, and the direct extractor. -/
structure FullEnv where
  getSubpages : String → List String
  extractMultipage : String → Option String × Nat
  pageContent : String → Option FetchedPage
  portalEnv : PortalEnv
  extractDirect : String → Option String

/-- The shared validation tail of `extract_full_text` (lines 805-814):
text present and at least `MIN_TEXT_LENGTH = 100` characters long makes the
result a success; otherwise a too-short error message is recorded. -/
def validateTail (r : ExtractionResult) (text : Option String) :
    ExtractionResult :=
  match text with
  | some t =>
    if 100 ≤ t.length then
      { r with status := .success, textLength := t.length, text := some t }
    else
      { r with
          errorMessage :=
            some ("Text too short (" ++ toString t.length ++ " chars)") }
  | none => { r with errorMessage := some "Text too short (0 chars)" }

/-- The analysis phase of `extract_full_text` (lines 779-815), entered when
there are no subpages or the multipage extraction fell short: classify the
page, return on `error`/`empty`/`disambiguation`, then resolve through the
portal resolver (attaching the portal choice) or extract directly, and
validate the text. -/
def extract_analysis_phase (env : FullEnv) (lang title : String)
    (r : ExtractionResult) : ExtractionResult :=
  let analysis := analyze_page title (env.pageContent title)
  let r2 := { r with pageType := some analysis }
  if analysis = .error then
    { r2 with errorMessage := some "Failed to fetch page" }
  else if analysis = .empty then
    { r2 with errorMessage := some "Page has no content" }
  else if analysis = .disambiguation then
    { r2 with status := .skipped, errorMessage := some "Disambiguation page" }
  else if analysis = .portal then
    let po := extract_portal env.portalEnv lang title 0 2
    validateTail { r2 with portalChoice := po.choice } po.text
  else
    validateTail { r2 with pageType := some .direct } (env.extractDirect title)

/-- Embeds `extract_full_text` (lines 744-815): subpages are checked first;
a multipage extraction of at least `MIN_TEXT_LENGTH` characters is an
immediate success, anything else falls through to the analysis phase with
the fetched-subpage count kept. -/
def extract_full_text (env : FullEnv) (lang title : String) :
    ExtractionResult :=
  let r0 : ExtractionResult :=
    { pageType := none, status := .failed, textLength := 0,
      subpagesFetched := 0, portalChoice := none, errorMessage := none,
      text := none }
  if (env.getSubpages title).isEmpty then
    extract_analysis_phase env lang title r0
  else
    let mp := env.extractMultipage title
    let rA := { r0 with
                pageType := some PageType.multipage
                subpagesFetched := mp.2 }
    match mp.1 with
    | some t =>
      if 100 ≤ t.length then
        { rA with status := .success, textLength := t.length, text := some t }
      else extract_analysis_phase env lang title rA
    | none => extract_analysis_phase env lang title rA

/-- The `portal_indicators` list of `WikisourceExtractor.is_portal_page`
(wikisource.py lines 105-106). -/
def portal_indicators : List String :=
  ["translations", "editions", "versions", "translated by", "see also:",
   "may refer to"]

/-- Embeds `WikisourceExtractor.is_portal_page` (wikisource.py lines
99-112): short text (under 500 characters, which covers the falsy empty
string) is portal-like; otherwise text under 2000 characters containing at
least two of the indicators is portal-like. -/
def is_portal_page (text : String) : Bool :=
  if text.length < 500 then true
  else
    let text_lower := pyLower text
    let c := (portal_indicators.filter
      (fun ind => containsSub ind text_lower)).length
    decide (text.length < 2000) && decide (c ≥ 2)

/-- Statuses of the result dict of `WikisourceExtractor.extract`. -/
inductive WStatus where
  | error
  | skipped
  | success
deriving DecidableEq, Repr

/-- The fields of the result dict of `WikisourceExtractor.extract` that the
method writes on its different paths (wikisource.py lines 77-126). -/
structure WSResult where
  status : WStatus
  textLength : Option Nat
  reason : Option String
  errorMsg : Option String

/-- The environment of `WikisourceExtractor.extract`: URL parsing (`none`
models a parse exception), the subpage check and the text fetch. -/
structure WSEnv where
  parseUrl : Option (String × String)
  hasSubpagesAns : Bool
  getText : Option String

/-- Embeds `WikisourceExtractor.extract` (wikisource.py lines 71-126): URL
parse errors and missing text are `error`; works with subpages and
portal-like pages are `skipped`; text under `MIN_TEXT_LENGTH = 200`
characters is `skipped` as too short; otherwise the extraction succeeds
with the text's length recorded. -/
def wikisource_extract (env : WSEnv) : WSResult :=
  match env.parseUrl with
  | none =>
    { status := .error, textLength := none, reason := none,
      errorMsg := some "URL parse error" }
  | some _ =>
    if env.hasSubpagesAns then
      { status := .skipped, textLength := none, reason := some "multipage",
        errorMsg := none }
    else
      match env.getText with
      | none =>
        { status := .error, textLength := none, reason := none,
          errorMsg := some "No text returned" }
      | some t =>
        if is_portal_page t then
          { status := .skipped, textLength := none, reason := some "portal",
            errorMsg := none }
        else if t.length < 200 then
          { status := .skipped, textLength := none,
            reason := some ("too_short (" ++ toString t.length ++ " chars)"),
            errorMsg := none }
        else
          { status := .success, textLength := some t.length, reason := none,
            errorMsg := none }

/-- Invariants of the analysis phase: from a carried-over record with
`failed` status and no portal choice, a `success` outcome has validated text
of at least 100 characters and an assigned page type, and a portal choice
can only be attached on the portal branch, which also records page type
`portal`. -/
theorem extract_analysis_phase_inv (env : FullEnv) (lang title : String)
    (r : ExtractionResult) (hr : r.portalChoice = none)
    (hs : r.status = .failed) :
    ((extract_analysis_phase env lang title r).status = .success →
      100 ≤ (extract_analysis_phase env lang title r).textLength ∧
      ((extract_analysis_phase env lang title r).pageType).isSome = true) ∧
    (((extract_analysis_phase env lang title r).portalChoice).isSome = true →
      analyze_page title (env.pageContent title) = .portal ∧
      (extract_analysis_phase env lang title r).pageType = some .portal) := by
  constructor
  · simp only [extract_analysis_phase, validateTail]
    repeat' split
    all_goals intro h
    all_goals
      first
        | exact ⟨by assumption, rfl⟩
        | (simp [hs] at h)
  · simp only [extract_analysis_phase, validateTail]
    repeat' split
    all_goals intro h
    all_goals
      first
        | (refine ⟨by assumption, ?_⟩
           rw [(by assumption :
             analyze_page title (env.pageContent title) = PageType.portal)])
        | (simp [hr] at h)

/-- C5: a pipeline result with status `success` has text of at least the
configured minimum length (100 characters in `extract_full_text`, 200 in
`WikisourceExtractor.extract`) and, in `extract_full_text`, an assigned
(non-`unknown`) page type; a portal choice is attached only to results
reached through portal resolution — the page was classified `portal` and
the result records page type `portal`; all non-portal paths leave it
absent. -/
theorem extraction_result_invariants (env : FullEnv) (wenv : WSEnv)
    (lang title : String) :
    ((extract_full_text env lang title).status = .success →
      100 ≤ (extract_full_text env lang title).textLength ∧
      ((extract_full_text env lang title).pageType).isSome = true) ∧
    (((extract_full_text env lang title).portalChoice).isSome = true →
      analyze_page title (env.pageContent title) = .portal ∧
      (extract_full_text env lang title).pageType = some .portal) ∧
    ((wikisource_extract wenv).status = .success →
      200 ≤ ((wikisource_extract wenv).textLength).getD 0) := by
  refine ⟨?_, ?_, ?_⟩
  · simp only [extract_full_text]
    repeat' split
    all_goals
      first
        | exact (extract_analysis_phase_inv env lang title _ rfl rfl).1
        | (intro h; exact ⟨by assumption, rfl⟩)
  · simp only [extract_full_text]
    repeat' split
    all_goals
      first
        | exact (extract_analysis_phase_inv env lang title _ rfl rfl).2
        | (intro h; simp at h)
  · simp only [wikisource_extract]
    repeat' split
    all_goals intro h
    all_goals try exact Nat.le_of_not_lt (by assumption)
    all_goals simp at h

/-- A concrete pipeline environment: no subpages, a portal-classified page,
and the portal resolver environment of the nested-recursion witness. -/
def fullWitEnv : FullEnv :=
  { getSubpages := fun _ => []
    extractMultipage := fun _ => (none, 0)
    pageContent := fun _ => some
      ⟨"This page lists every translation of this famous work by its title.",
       []⟩
    portalEnv := portalWitEnv
    extractDirect := fun _ => none }

/-- A concrete extractor environment: parseable URL, no subpages and a
500-character text. -/
def wsWitEnv : WSEnv :=
  { parseUrl := some ("en", "Work")
    hasSubpagesAns := false
    getText := some ⟨List.replicate 500 'x'⟩ }

set_option maxRecDepth 10000 in
/-- Witness for C5 at concrete inputs: a successful portal-path pipeline run
has text length at least 100 and page type `portal`, and a successful
extractor run has text length at least 200. -/
theorem extraction_result_invariants_witness :
    100 ≤ (extract_full_text fullWitEnv "en" "Works_of_Homer").textLength ∧
    (extract_full_text fullWitEnv "en" "Works_of_Homer").pageType
      = some .portal ∧
    200 ≤ ((wikisource_extract wsWitEnv).textLength).getD 0 := by
  have h := extraction_result_invariants fullWitEnv wsWitEnv "en"
    "Works_of_Homer"
  exact ⟨(h.1 (by decide)).1, (h.2.1 (by decide)).2, h.2.2 (by decide)⟩
